import Mathlib

/-!
Verification of the IMAP BODYSTRUCTURE codec (`src/lib-imap/imap-bodystructure.c`).

The development shallowly embeds the three cores of the file:
  * the header classifier and its micro-parsers (`parse_header`,
    `parse_content_language`, ...),
  * the structure tree serializer (`part_write_bodystructure`,
    `part_write_body_multipart`, `part_write_body`),
  * the structure string reducer (`imap_parse_bodystructure_args`,
    `imap_write_list`, `imap_body_parse_from_bodystructure`).

C strings built by appending to a `TempString` become Lean `String`
concatenations in source order.  Code paths that trigger `i_assert` or
append a `NULL` pointer (undefined behaviour) are modelled as `Option`
failures (`none`); `return FALSE` paths of the reducer likewise.
-/

namespace Bodystructure

/-! ### Decimal rendering of unsigned integers

Models the `%u` / `%"PRIuUOFF_T"` conversions of `t_string_printfa`. -/

def digitChar (n : Nat) : Char := Char.ofNat (48 + n)

/-- Fuelled digit accumulation (most significant digit first); the fuel
`n + 1` always suffices since `n / 10 < n` for `n ≥ 10`. -/
def decCharsCore : Nat → Nat → List Char → List Char
  | 0, _, acc => acc
  | fuel + 1, n, acc =>
    if n < 10 then digitChar n :: acc
    else decCharsCore fuel (n / 10) (digitChar (n % 10) :: acc)

def uintRepr (n : Nat) : String := ⟨decCharsCore (n + 1) n []⟩

/-! ### The parsed IMAP argument tree

`ImapArg` models the argument values produced by the generic IMAP
argument parser (`ImapArg` of `imap-parser.h`): `NIL`, an atom, a quoted
string (bytes kept verbatim, `IMAP_PARSE_FLAG_NO_UNESCAPE`), or a
parenthesized list.  The `IMAP_ARG_EOL` sentinel of the C array becomes
the end of the Lean list. -/

inductive ImapArg where
  | nil : ImapArg
  | atom : String → ImapArg
  | str : String → ImapArg
  | list : List ImapArg → ImapArg

/-- `tolower` on one byte (ASCII range, as the C locale applies it). -/
def lowerNat (n : Nat) : Nat := if 65 ≤ n && n ≤ 90 then n + 32 else n

def strcaseEq : List Char → List Char → Bool
  | [], [] => true
  | a :: as, b :: bs => (lowerNat a.toNat == lowerNat b.toNat) && strcaseEq as bs
  | _, _ => false

/-- `strcasecmp(a, b) == 0` (byte-wise ASCII case-insensitive equality). -/
def lowerEq (a b : String) : Bool := strcaseEq a.data b.data

/-! ### `imap_write_list` — verbatim passthrough writer -/

mutual

/-- The body of `imap_write_list`'s loop: write the arguments separated by
single spaces (the C appends `' '` whenever the next argument is not EOL). -/
def imap_write_list_items : List ImapArg → String
  | [] => ""
  | [a] => imap_write_arg a
  | a :: b :: rest => imap_write_arg a ++ " " ++ imap_write_list_items (b :: rest)

/-- One switch iteration of `imap_write_list`: `NIL`, raw atom, quoted
string, or recursive parenthesized list. -/
def imap_write_arg : ImapArg → String
  | .nil => "NIL"
  | .atom s => s
  | .str s => "\"" ++ s ++ "\""
  | .list l => "(" ++ imap_write_list_items l ++ ")"

end

/-- `imap_write_list`: wrap the space-separated items in parentheses.  The
C function returns `FALSE` only on an argument type outside
`{NIL, atom, string, list}`, which the `ImapArg` model excludes, so the
Lean embedding is total. -/
def imap_write_list (args : List ImapArg) : String :=
  "(" ++ imap_write_list_items args ++ ")"

/-! ### `imap_parse_bodystructure_args` — the structure string reducer -/

/-- One iteration of the reducer's ``"content id" "content description"
"transfer encoding" size`` loop body, without the leading space:
`NIL`, raw atom text, or re-quoted string; a list returns `FALSE`. -/
def copy_item : ImapArg → Option String
  | .nil => some "NIL"
  | .atom s => some s
  | .str s => some ("\"" ++ s ++ "\"")
  | .list _ => none

/-- The reducer's four-field copy loop (`for (i = 0; i < 4; i++, args++)`).
Returns the emitted text (each item preceded by one space) and the
remaining arguments.  Running out of arguments means the C loop looked at
the `EOL` sentinel, whose type fails all three checks. -/
def copy_items : Nat → List ImapArg → Option (String × List ImapArg)
  | 0, args => some ("", args)
  | _ + 1, [] => none
  | n + 1, a :: rest => do
    let s ← copy_item a
    let (s', rest') ← copy_items n rest
    pure (" " ++ s ++ s', rest')

/-- The parameter-list copy loop of the reducer: pairs of quoted strings,
single space between pairs, `FALSE` on anything else (including an odd
number of items, where `subargs[1]` is the `EOL` sentinel). -/
def copy_params_items : List ImapArg → Option String
  | [] => some ""
  | .str k :: .str v :: rest => do
    let tail ← match rest with
      | [] => pure ""
      | _ :: _ => (copy_params_items rest).map (" " ++ ·)
    pure ("\"" ++ k ++ "\" \"" ++ v ++ "\"" ++ tail)
  | _ => none

/-- The reducer's ``("content type param key" "value" ...) | NIL`` block:
a parameter list is copied through re-quoted, `NIL` is copied, anything
else returns `FALSE`. -/
def params_field : ImapArg → Option String
  | .list sub => (copy_params_items sub).map (fun p => " (" ++ p ++ ")")
  | .nil => some " NIL"
  | _ => none

/-- The four iterations of the reducer's verbatim copy loop, given that
four arguments are present (`bs_leaf` pattern-matches them; when fewer
are present the C loop meets the `EOL` sentinel and fails, which the
caller's fallthrough models). -/
def copy4 (a b c d : ImapArg) : Option String := do
  let sa ← copy_item a
  let sb ← copy_item b
  let sc ← copy_item c
  let sd ← copy_item d
  pure (" " ++ sa ++ " " ++ sb ++ " " ++ sc ++ " " ++ sd)

mutual

/-- `imap_parse_bodystructure_args`.  The leading `while (args->type ==
IMAP_ARG_LIST)` loop classifies the level: at least one leading list means
multipart (handled with `bs_multipart_rest`).  Otherwise the leaf branch
runs: type and subtype strings, the parameter list (or `NIL`), four
verbatim fields, then the `text` / `message/rfc822` specific trailer;
arguments remaining after that (the extended `BODYSTRUCTURE` fields) are
never examined.  Any level with too few arguments makes a type check hit
the `EOL` sentinel, i.e. falls through to `none`. -/
def imap_parse_bodystructure_args : List ImapArg → Option String
  | .list l :: rest => do
    let inner ← imap_parse_bodystructure_args l
    bs_multipart_rest rest ("(" ++ inner ++ ")")
  | .str ty :: .str st :: params :: a :: b :: c :: d :: rest2 => do
    let s0 := "\"" ++ ty ++ "\" \"" ++ st ++ "\""
    let s1 ← params_field params
    let s2 ← copy4 a b c d
    if lowerEq ty "text" then
      match rest2 with
      | .atom la :: _ => some (s0 ++ s1 ++ s2 ++ " " ++ la)
      | _ => none
    else if lowerEq ty "message" && lowerEq st "rfc822" then
      match rest2 with
      | .list env :: .list body :: .atom lines :: _ => do
        let sb ← imap_parse_bodystructure_args body
        some (s0 ++ s1 ++ s2 ++ " " ++ imap_write_list env ++ " " ++ sb ++ " " ++ lines)
      | _ => none
    else
      some (s0 ++ s1 ++ s2)
  | _ => none

/-- Continuation of the leading-list loop once `multipart` is `TRUE`:
further nested lists are reduced and concatenated without separators;
the first non-list argument must be the subtype string, and everything
after it is skipped. -/
def bs_multipart_rest : List ImapArg → String → Option String
  | .list l :: rest, acc => do
    let inner ← imap_parse_bodystructure_args l
    bs_multipart_rest rest (acc ++ "(" ++ inner ++ ")")
  | .str s :: _, acc => some (acc ++ " \"" ++ s ++ "\"")
  | _, _ => none

end

/-! ### RFC822 tokens

The RFC822 tokenizer is an external collaborator; its tokens are modelled
at the token level: a token is either a single special character (`token`
is that character; a `'('` token stands for a whole pre-bounded comment)
or a string-class token (`IS_TOKEN_STRING`) carrying its raw bytes. -/

inductive Rfc822Token where
  | special : Char → Rfc822Token
  | stringTok : String → Rfc822Token

/-- The token loop of `parse_content_language`, carrying the `quoted` flag
and the text accumulated so far; a still-open quote is closed at the end
of input. -/
def parse_content_language_loop : List Rfc822Token → Bool → String → String
  | [], quoted, acc => if quoted then acc ++ "\"" else acc
  | t :: rest, quoted, acc =>
    match t with
    | .special '(' =>
      -- ignore comment
      parse_content_language_loop rest quoted acc
    | .special ',' =>
      -- list separator
      parse_content_language_loop rest false (if quoted then acc ++ "\"" else acc)
    | t =>
      let acc1 := if !quoted then (if acc.length > 0 then acc ++ " " else acc) ++ "\"" else acc
      let acc2 := match t with
        | .stringTok s => acc1 ++ s
        | .special ch => acc1 ++ ch.toString
      parse_content_language_loop rest true acc2

/-- `parse_content_language`: on an empty token stream the function
returns without touching `data->content_language` (modelled as `none`);
otherwise the accumulated string (possibly empty, if every token was a
comment) is stored. -/
def parse_content_language (tokens : List Rfc822Token) : Option String :=
  match tokens with
  | [] => none
  | _ => some (parse_content_language_loop tokens false "")

/-! ### Per-part metadata (`MessagePartBodyData`) -/

/-- `MessagePartBodyData`: each field holds the pre-rendered text exactly
as the C stores it (`content_type` includes its quotes, `content_type_params`
is the space-joined `"name" "value"` text, ...).  `envelope` is the opaque
accumulated envelope value. -/
structure MessagePartBodyData where
  content_type : Option String := none
  content_subtype : Option String := none
  content_type_params : Option String := none
  content_transfer_encoding : Option String := none
  content_id : Option String := none
  content_description : Option String := none
  content_disposition : Option String := none
  content_disposition_params : Option String := none
  content_md5 : Option String := none
  content_language : Option String := none
  envelope : Option String := none

/-- Modelled from the spec: `imap_quote_value` (imap-quote.c is not under
src/) — "quoted verbatim from raw header bytes (opaque tokens; only
quote/backslash escaping applied, no structured parsing)". -/
def quoteEscape : List Char → List Char
  | [] => []
  | c :: rest =>
    if c = '"' || c = '\\' then '\\' :: c :: quoteEscape rest
    else c :: quoteEscape rest

def imap_quote_value (s : String) : String :=
  "\"" ++ String.mk (quoteEscape s.data) ++ "\""

/-- Modelled from the spec: `imap_envelope_parse_header` (imap-envelope.c
is not under src/) — the Envelope Builder "accumulates header name/value
pairs into an opaque envelope value".  The opaque value is modelled as the
accumulated quoted pair text. -/
def imap_envelope_parse_header (old : Option String) (name value : String) : Option String :=
  some ((match old with | none => "" | some s => s ++ " ") ++
        imap_quote_value name ++ " " ++ imap_quote_value value)

/-- One header line as delivered to `parse_header`, carrying along the
outputs of the external value collaborators (`message_content_parse_header`
with the respective callbacks, and the RFC822 tokenizer): `ct_type` and
`ct_subtype` are what `parse_content_type` stores (the quoted main value
split at the first `/`), `params` is the `"name" "value"` text accumulated
by `parse_save_params_list`, `single_value` is the whole quoted main value
(`parse_content_transfer_encoding` / `parse_content_disposition`),
`lang_tokens` is the token stream of the value, `value` the raw bytes. -/
structure HeaderLine where
  name : String
  value : String := ""
  ct_type : String := ""
  ct_subtype : String := ""
  params : String := ""
  single_value : String := ""
  lang_tokens : List Rfc822Token := []

/-- `strncasecmp(name, "Content-", 8) == 0` on the first 8 bytes. -/
def content_prefixed (name : String) : Bool :=
  lowerEq (String.mk (name.data.take 8)) "Content-"

/-- `parse_header`: relevance check, lazy allocation of the part's
`MessagePartBodyData`, then the first-match dispatch chain with its
set-once guards.  `parent_rfc822` is `part->parent != NULL &&
(part->parent->flags & MESSAGE_PART_FLAG_MESSAGE_RFC822)`. -/
def parse_header (parent_rfc822 : Bool) (ctx : Option MessagePartBodyData)
    (h : HeaderLine) : Option MessagePartBodyData :=
  if !parent_rfc822 && (h.name.length ≤ 8 || !content_prefixed h.name) then
    ctx
  else
    let d := ctx.getD {}
    if lowerEq h.name "Content-Type" && d.content_type.isNone then
      some { d with content_type := some h.ct_type,
                    content_subtype := some h.ct_subtype,
                    content_type_params := some h.params }
    else if lowerEq h.name "Content-Transfer-Encoding" &&
            d.content_transfer_encoding.isNone then
      some { d with content_transfer_encoding := some h.single_value }
    else if lowerEq h.name "Content-ID" && d.content_id.isNone then
      some { d with content_id := some (imap_quote_value h.value) }
    else if lowerEq h.name "Content-Description" && d.content_description.isNone then
      some { d with content_description := some (imap_quote_value h.value) }
    else if lowerEq h.name "Content-Disposition" &&
            d.content_disposition_params.isNone then
      some { d with content_disposition := some h.single_value,
                    content_disposition_params := some h.params }
    else if lowerEq h.name "Content-Language" then
      some { d with content_language :=
        match parse_content_language h.lang_tokens with
        | some s => some s
        | none => d.content_language }
    else if lowerEq h.name "Content-MD5" && d.content_md5.isNone then
      some { d with content_md5 := some (imap_quote_value h.value) }
    else if parent_rfc822 then
      some { d with envelope := imap_envelope_parse_header d.envelope h.name h.value }
    else
      some d

/-- Folding `parse_header` over the headers of one part, in document
order, starting from no metadata. -/
def parse_headers_acc (parent_rfc822 : Bool) (ctx : Option MessagePartBodyData) :
    List HeaderLine → Option MessagePartBodyData
  | [] => ctx
  | h :: rest => parse_headers_acc parent_rfc822 (parse_header parent_rfc822 ctx h) rest

def parse_headers (parent_rfc822 : Bool) (hs : List HeaderLine) :
    Option MessagePartBodyData :=
  parse_headers_acc parent_rfc822 none hs

/-! ### The annotated MIME-part tree -/

/-- The three `MESSAGE_PART_FLAG_*` bits this file reads, as independent
booleans (the C flags word is a bitmask). -/
structure MessagePartFlags where
  multipart : Bool := false
  text : Bool := false
  message_rfc822 : Bool := false

/-- `MessageSize`: `virtual_size` octets and line count. -/
structure MessageSize where
  virtual_size : Nat := 0
  lines : Nat := 0

/-- A `MessagePart` tree node: flags, body size, the lazily attached
metadata (`part->context`) and the ordered children. -/
inductive MessagePart where
  | mk : MessagePartFlags → MessageSize → Option MessagePartBodyData →
         List MessagePart → MessagePart

def MessagePart.flags : MessagePart → MessagePartFlags
  | .mk f _ _ _ => f

def MessagePart.body_size : MessagePart → MessageSize
  | .mk _ s _ _ => s

def MessagePart.context : MessagePart → Option MessagePartBodyData
  | .mk _ _ c _ => c

def MessagePart.children : MessagePart → List MessagePart
  | .mk _ _ _ cs => cs

/-! ### The structure tree serializer -/

def EMPTY_BODYSTRUCTURE : String :=
  "(\"text\" \"plain\" (\"charset\" \"us-ascii\") NIL NIL \"7bit\" 0 0)"

/-- `NVL(str, nullstr)`. -/
def NVL (s : Option String) (dflt : String) : String := s.getD dflt

/-- The recurring ``'(' params ')' | "NIL"`` rendering (used for the
content-type parameters and, with the same shape, the language list). -/
def paren_or_nil : Option String → String
  | none => "NIL"
  | some p => "(" ++ p ++ ")"

/-- Extended disposition rendering of `part_write_body_multipart`: the
optional parameter list sits inside the disposition's parentheses. -/
def disposition_field_multipart (d : MessagePartBodyData) : String :=
  match d.content_disposition with
  | none => "NIL"
  | some disp =>
    "(" ++ disp ++
      (match d.content_disposition_params with
       | none => ""
       | some p => " (" ++ p ++ ")") ++ ")"

/-- Extended disposition rendering of `part_write_body`: the source closes
the disposition's parenthesis before appending the optional parameter
list as a separate parenthesized field. -/
def disposition_field_leaf (d : MessagePartBodyData) : String :=
  match d.content_disposition with
  | none => "NIL"
  | some disp =>
    "(" ++ disp ++ ")" ++
      (match d.content_disposition_params with
       | none => ""
       | some p => " (" ++ p ++ ")")

/-- The trailing extended (`BODYSTRUCTURE`) fields of
`part_write_body_multipart`: params, disposition, language. -/
def multipart_ext_tail (d : MessagePartBodyData) : String :=
  " " ++ paren_or_nil d.content_type_params ++
  " " ++ disposition_field_multipart d ++
  " " ++ paren_or_nil d.content_language

/-- The leading fields of `part_write_body` common to every leaf: type,
subtype, params, id, description, transfer encoding and octet size, with
the documented defaults for missing metadata. -/
def leaf_base (d : MessagePartBodyData) (size : MessageSize) : String :=
  NVL d.content_type "\"text\"" ++ " " ++
  NVL d.content_subtype "\"plain\"" ++ " " ++
  paren_or_nil d.content_type_params ++ " " ++
  NVL d.content_id "NIL" ++ " " ++
  NVL d.content_description "NIL" ++ " " ++
  NVL d.content_transfer_encoding "\"8bit\"" ++ " " ++
  uintRepr size.virtual_size

/-- The trailing extended (`BODYSTRUCTURE`) fields of `part_write_body`:
md5, disposition, language. -/
def leaf_ext_tail (d : MessagePartBodyData) : String :=
  " " ++ NVL d.content_md5 "NIL" ++
  " " ++ disposition_field_leaf d ++
  " " ++ paren_or_nil d.content_language

/-- The envelope field of a `message/rfc822` part, read from the sole
child's metadata: parenthesized envelope data if present, `NIL` for a
"buggy message".  The external `imap_envelope_write_part_data` writes the
opaque envelope value, modelled as the stored text itself. -/
def rfc822_envelope_field (child : MessagePart) : String :=
  match child.context with
  | some cd =>
    (match cd.envelope with
     | some env => "(" ++ env ++ ")"
     | none => "NIL")
  | none => "NIL"

mutual

/-- The sibling loop of `part_write_bodystructure` for parts with a
parent: each part is wrapped in one parenthesis pair, consecutive
siblings are concatenated with no separator. -/
def part_write_bodystructure_siblings : List MessagePart → Bool → Option String
  | [], _ => some ""
  | p :: rest, ext => do
    let body ← if p.flags.multipart then part_write_body_multipart p ext
               else part_write_body p ext
    let tail ← part_write_bodystructure_siblings rest ext
    pure ("(" ++ body ++ ")" ++ tail)

/-- `part_write_body_multipart`.  `i_assert(data != NULL)` and the
`t_string_append` of a `NULL` subtype are modelled as failures; a
multipart with no children writes the `EMPTY_BODYSTRUCTURE` placeholder. -/
def part_write_body_multipart : MessagePart → Bool → Option String
  | .mk _ _ ctx children, ext => do
    let d ← ctx
    let childs ← match children with
      | [] => pure EMPTY_BODYSTRUCTURE
      | c :: cs => part_write_bodystructure_siblings (c :: cs) ext
    let sub ← d.content_subtype
    pure (childs ++ " " ++ sub ++ (if ext then multipart_ext_tail d else ""))

/-- `part_write_body`.  Missing metadata is replaced by a zeroed
structure (`t_new`); the `message/rfc822` asserts (exactly one child) are
modelled as failures. -/
def part_write_body : MessagePart → Bool → Option String
  | .mk f sz ctx children, ext => do
    let d := ctx.getD {}
    let mid ← if f.text then
        pure (" " ++ uintRepr sz.lines)
      else if f.message_rfc822 then
        match children with
        | [child] => do
          let cs ← part_write_bodystructure_siblings [child] ext
          pure (" " ++ rfc822_envelope_field child ++ " " ++ cs ++ " " ++
                uintRepr sz.lines)
        | _ => none
      else
        pure ""
    pure (leaf_base d sz ++ mid ++ (if ext then leaf_ext_tail d else ""))

end

/-- Dispatch of `part_write_bodystructure`'s loop body for a single part. -/
def part_write_one (part : MessagePart) (ext : Bool) : Option String :=
  if part.flags.multipart then part_write_body_multipart part ext
  else part_write_body part ext

/-- `part_get_bodystructure` (and `imap_part_get_bodystructure` after
header parsing): `part_write_bodystructure` on the root, whose
`parent == NULL` (so no parentheses) and which
`i_assert(part->parent != NULL || part->next == NULL)` forces to be
sibling-free. -/
def part_get_bodystructure (part : MessagePart) (ext : Bool) : Option String :=
  part_write_one part ext

mutual

/-- The trees on which the serializer cannot hit an assertion or append a
`NULL` string: every multipart part carries metadata with a subtype, and
every `message/rfc822` part has exactly one child. -/
def renderOk : MessagePart → Bool
  | .mk f _ ctx children =>
    if f.multipart then
      (match ctx with
       | some d => d.content_subtype.isSome
       | none => false) && renderOkList children
    else if f.text then true
    else if f.message_rfc822 then
      match children with
      | [c] => renderOk c
      | _ => false
    else true

def renderOkList : List MessagePart → Bool
  | [] => true
  | p :: rest => renderOk p && renderOkList rest

end

/-! ### The reducer's input grammar, as the specification states it

Second definition for the refinement claim about `MalformedStructure`:
§4.3 of the specification describes the accepted shape of one argument
level — a leaf needs a type string, a subtype string, a parameter list of
string pairs or `NIL`, four items that are not lists, then for `text` a
line-count atom and for `message/rfc822` an envelope list, a recursively
wellformed bodystructure list and a line-count atom; a multipart level is
one or more recursively wellformed leading lists followed by a subtype
string.  Anything else is malformed. -/

def arg_simple : ImapArg → Bool
  | .list _ => false
  | _ => true

def params_pairs_wf : List ImapArg → Bool
  | [] => true
  | .str _ :: .str _ :: rest => params_pairs_wf rest
  | _ => false

def params_arg_wf : ImapArg → Bool
  | .list sub => params_pairs_wf sub
  | .nil => true
  | _ => false

mutual

def bs_wf : List ImapArg → Bool
  | .list l :: rest => bs_wf l && bs_wf_multipart rest
  | .str ty :: .str st :: params :: a :: b :: c :: d :: rest2 =>
    params_arg_wf params && arg_simple a && arg_simple b &&
    arg_simple c && arg_simple d &&
    (if lowerEq ty "text" then
       match rest2 with
       | .atom _ :: _ => true
       | _ => false
     else if lowerEq ty "message" && lowerEq st "rfc822" then
       match rest2 with
       | .list _ :: .list body :: .atom _ :: _ => bs_wf body
       | _ => false
     else true)
  | _ => false

def bs_wf_multipart : List ImapArg → Bool
  | .list l :: rest => bs_wf l && bs_wf_multipart rest
  | .str _ :: _ => true
  | _ => false

end

/-! ### Field-level view of the serializer

`partFields` lists, per part, the chunks the serializer appends for that
part, in order: literal text, or a recursively rendered run of child
parts (`part_write_bodystructure` on parts with a parent).  It follows
the append structure of `part_write_body_multipart` / `part_write_body`;
`flattenFields` restores the rendered text. -/

inductive RField where
  | lit : String → RField
  | sub : List MessagePart → RField

def partFields (p : MessagePart) (e : Bool) : Option (List RField) :=
  match p with
  | .mk f sz ctx children =>
    if f.multipart then
      match ctx with
      | none => none
      | some d =>
        match d.content_subtype with
        | none => none
        | some sub =>
          some ((match children with
                 | [] => RField.lit EMPTY_BODYSTRUCTURE
                 | c :: cs => RField.sub (c :: cs)) ::
                RField.lit (" " ++ sub) ::
                (if e then [RField.lit (multipart_ext_tail d)] else []))
    else
      let d := ctx.getD {}
      (if f.text then
         some [RField.lit (" " ++ uintRepr sz.lines)]
       else if f.message_rfc822 then
         match children with
         | [child] =>
           some [RField.lit (" " ++ rfc822_envelope_field child ++ " "),
                 RField.sub [child],
                 RField.lit (" " ++ uintRepr sz.lines)]
         | _ => none
       else some []).map
        (fun mid => RField.lit (leaf_base d sz) ::
                    (mid ++ (if e then [RField.lit (leaf_ext_tail d)] else [])))

def flattenFields (e : Bool) : List RField → Option String
  | [] => some ""
  | .lit s :: rest => (flattenFields e rest).map (fun r => s ++ r)
  | .sub ps :: rest => do
    let s ← part_write_bodystructure_siblings ps e
    let r ← flattenFields e rest
    pure (s ++ r)

/-! ### A model of the external generic IMAP argument parser

`imap_body_parse_from_bodystructure` hands the stored text to
`imap_parser_read_args` (imap-parser.c, not under src/) with
`IMAP_PARSE_FLAG_NO_UNESCAPE`.  Modelled from the spec: "Generic IMAP
argument parser: raw wire text → `{NIL, atom, quoted-string, list}` tree";
"strings double-quoted with `\`/`"` escaping; absent values are the bare
token `NIL`".  With `NO_UNESCAPE` the bytes of a quoted string keep their
backslash escapes.  Atoms end at a space, parenthesis or double quote;
the bare atom `NIL` becomes the `nil` argument.  The recursion is
fuelled; the entry point supplies ample fuel for its input. -/

def atom_special (c : Char) : Bool :=
  c = ' ' || c = '(' || c = ')' || c = '"'

def scanAtom : List Char → List Char × List Char
  | [] => ([], [])
  | c :: rest =>
    if atom_special c then ([], c :: rest)
    else
      let (a, r) := scanAtom rest
      (c :: a, r)

mutual

def scanQuoted : List Char → Option (List Char × List Char)
  | [] => none
  | c :: rest =>
    if c = '\\' then scanQuotedEsc rest
    else if c = '"' then some ([], rest)
    else (scanQuoted rest).map (fun (s, r) => (c :: s, r))

/-- After a backslash: keep the escape pair verbatim (`NO_UNESCAPE`);
a dangling backslash never finds the closing quote. -/
def scanQuotedEsc : List Char → Option (List Char × List Char)
  | [] => none
  | c2 :: rest2 => (scanQuoted rest2).map (fun (s, r) => ('\\' :: c2 :: s, r))

end

mutual

def parseOne : Nat → List Char → Option (ImapArg × List Char)
  | 0, _ => none
  | _ + 1, [] => none
  | fuel + 1, c :: rest =>
    if c = '(' then
      (parseListItems fuel rest).map (fun (l, r) => (ImapArg.list l, r))
    else if c = '"' then
      (scanQuoted rest).map (fun (s, r) => (ImapArg.str (String.mk s), r))
    else
      match scanAtom (c :: rest) with
      | ([], _) => none
      | (a :: as, r) =>
        some (if String.mk (a :: as) = "NIL" then ImapArg.nil
              else ImapArg.atom (String.mk (a :: as)), r)

def parseListItems : Nat → List Char → Option (List ImapArg × List Char)
  | 0, _ => none
  | _ + 1, [] => none
  | fuel + 1, c :: rest =>
    if c = ')' then some ([], rest)
    else if c = ' ' then parseListItems fuel rest
    else do
      let (a, r) ← parseOne fuel (c :: rest)
      let (l, r2) ← parseListItems fuel r
      pure (a :: l, r2)

end

def parseTopItems : Nat → List Char → Option (List ImapArg)
  | 0, _ => none
  | _ + 1, [] => some []
  | fuel + 1, c :: rest =>
    if c = ' ' then parseTopItems fuel rest
    else do
      let (a, r) ← parseOne fuel (c :: rest)
      let l ← parseTopItems fuel r
      pure (a :: l)

/-- Modelled from the spec: `imap_parser_read_args` on one line of wire
text, reading every argument up to the end of the input. -/
def imap_parser_read_args_model (s : String) : Option (List ImapArg) :=
  parseTopItems (4 * s.data.length + 4) s.data

/-- `imap_body_parse_from_bodystructure`: parse the stored text with the
external argument parser, then reduce; `NULL` (logged as an error) when
either step fails. -/
def imap_body_parse_from_bodystructure (s : String) : Option String :=
  (imap_parser_read_args_model s).bind imap_parse_bodystructure_args

/-! ### Canonical argument trees

Exactly the trees the argument parser can produce: atoms are nonempty,
contain no delimiter and are not the word `NIL`; quoted-string bytes
contain no unescaped quote and no dangling backslash; lists are canonical
throughout. -/

mutual

def quotedOkChars : List Char → Bool
  | [] => true
  | c :: rest =>
    if c = '\\' then quotedOkAfterEsc rest
    else if c = '"' then false
    else quotedOkChars rest

def quotedOkAfterEsc : List Char → Bool
  | [] => false
  | _ :: rest2 => quotedOkChars rest2

end

mutual

def argCanonical : ImapArg → Bool
  | .nil => true
  | .atom a => !a.data.isEmpty && a.data.all (fun c => !atom_special c) && !(a = "NIL" : Bool)
  | .str s => quotedOkChars s.data
  | .list l => argsCanonical l

def argsCanonical : List ImapArg → Bool
  | [] => true
  | a :: rest => argCanonical a && argsCanonical rest

end

/-! ### Reduce-shaped flattening

The exact text the reducer emits for a reduced argument level: leading
child lists are adjacent (the multipart sibling run), everything after
them is single-space separated, and nested lists recurse. -/

mutual

def flattenBS_args : List ImapArg → String
  | .list l :: rest => "(" ++ flattenBS_args l ++ ")" ++ flattenBS_tail rest
  | args => flattenBS_spaced args

def flattenBS_tail : List ImapArg → String
  | [] => ""
  | .list l :: rest => "(" ++ flattenBS_args l ++ ")" ++ flattenBS_tail rest
  | args => " " ++ flattenBS_spaced args

def flattenBS_spaced : List ImapArg → String
  | [] => ""
  | [a] => flattenBS_arg a
  | a :: b :: rest => flattenBS_arg a ++ " " ++ flattenBS_spaced (b :: rest)

def flattenBS_arg : ImapArg → String
  | .nil => "NIL"
  | .atom a => a
  | .str s => "\"" ++ s ++ "\""
  | .list l => "(" ++ flattenBS_args l ++ ")"

end

/-! ### Absence of `message/rfc822` levels

The classification the reducer would perform, restricted to the levels it
recurses into: no reachable leaf level may classify as `message/rfc822`. -/

mutual

def bs_noRfc822 : List ImapArg → Bool
  | .list l :: rest => bs_noRfc822 l && bs_noRfc822_tail rest
  | .str ty :: .str st :: _ => !(lowerEq ty "message" && lowerEq st "rfc822")
  | _ => true

def bs_noRfc822_tail : List ImapArg → Bool
  | .list l :: rest => bs_noRfc822 l && bs_noRfc822_tail rest
  | _ => true

end

/-! ## Theorems -/

/-- Strong induction over the nested `MessagePart` tree. -/
theorem MessagePart.strongInd (P : MessagePart → Prop)
    (step : ∀ f sz ctx children, (∀ c ∈ children, P c) → P (.mk f sz ctx children)) :
    ∀ p, P p := by
  have H : ∀ (n : Nat) (p : MessagePart), sizeOf p ≤ n → P p := by
    intro n
    induction n with
    | zero =>
      intro p hp
      cases p
      simp at hp
    | succ n ih =>
      intro p hp
      cases p with
      | mk f sz ctx children =>
        apply step
        intro c hc
        apply ih
        have h1 := List.sizeOf_lt_of_mem hc
        simp at hp
        omega
  exact fun p => H (sizeOf p) p (Nat.le_refl _)

theorem renderOkList_mem :
    ∀ (cs : List MessagePart), renderOkList cs = true → ∀ c ∈ cs, renderOk c = true := by
  intro cs
  induction cs with
  | nil => intro _ c hc; cases hc
  | cons p rest ih =>
    intro h c hc
    rw [renderOkList] at h
    rw [Bool.and_eq_true] at h
    rcases List.mem_cons.mp hc with rfl | hc'
    · exact h.1
    · exact ih h.2 c hc'

theorem siblings_isSome (e : Bool) :
    ∀ (cs : List MessagePart),
    (∀ c ∈ cs, (part_write_one c e).isSome = true) →
    (part_write_bodystructure_siblings cs e).isSome = true := by
  intro cs
  induction cs with
  | nil => intro _; rfl
  | cons p rest ih =>
    intro h
    have hp := h p (List.mem_cons_self p rest)
    have hr := ih (fun c hc => h c (List.mem_cons_of_mem p hc))
    rw [Option.isSome_iff_exists] at hp hr
    obtain ⟨s, hs⟩ := hp
    obtain ⟨t, ht⟩ := hr
    have hs' : (if p.flags.multipart then part_write_body_multipart p e
                else part_write_body p e) = some s := hs
    cases hmp : p.flags.multipart with
    | true =>
      simp only [hmp, if_true] at hs'
      simp [part_write_bodystructure_siblings, hmp, hs', ht]
    | false =>
      simp only [hmp, Bool.false_eq_true, if_false] at hs'
      simp [part_write_bodystructure_siblings, hmp, hs', ht]

theorem renderOk_isSome :
    ∀ (p : MessagePart), renderOk p = true → ∀ (e : Bool),
      (part_write_one p e).isSome = true := by
  intro p
  induction p using MessagePart.strongInd with
  | step f sz ctx children ih =>
    intro hok e
    obtain ⟨mp, tx, rf⟩ := f
    rw [renderOk.eq_def] at hok
    cases mp with
    | true =>
      simp at hok
      obtain ⟨hctx, hlist⟩ := hok
      cases ctx with
      | none => simp at hctx
      | some d =>
        simp at hctx
        rw [Option.isSome_iff_exists] at hctx
        obtain ⟨sub, hsub⟩ := hctx
        have hkids : ∀ c ∈ children, (part_write_one c e).isSome = true :=
          fun c hcm => ih c hcm (renderOkList_mem children hlist c hcm) e
        cases children with
        | nil => simp [part_write_one, MessagePart.flags, part_write_body_multipart, hsub]
        | cons c cs =>
          have hsib := siblings_isSome e (c :: cs) hkids
          rw [Option.isSome_iff_exists] at hsib
          obtain ⟨ks, hks⟩ := hsib
          simp [part_write_one, MessagePart.flags, part_write_body_multipart, hsub, hks]
    | false =>
      cases tx with
      | true => simp [part_write_one, MessagePart.flags, part_write_body]
      | false =>
        cases rf with
        | true =>
          simp at hok
          cases children with
          | nil => simp at hok
          | cons c cs =>
            cases cs with
            | cons c2 cs2 => simp at hok
            | nil =>
              have hcok : renderOk c = true := by simpa using hok
              have hco := ih c (List.mem_cons_self c []) hcok e
              have hsib := siblings_isSome e [c] (by
                intro x hx
                rcases List.mem_singleton.mp hx with rfl
                exact hco)
              rw [Option.isSome_iff_exists] at hsib
              obtain ⟨ks, hks⟩ := hsib
              simp [part_write_one, MessagePart.flags, part_write_body, hks]
        | false => simp [part_write_one, MessagePart.flags, part_write_body]

/-- C1.  The claim is falsified by the source: `part_write_body_multipart`
begins with `i_assert(data != NULL)` and appends the subtype without a
default, so a multipart part carrying no metadata at all does not render
as defaults — it aborts.  This closed counterexample shows both renderings
of such a tree failing. -/
theorem c1_counterexample :
    part_get_bodystructure (.mk { multipart := true } {} none []) false = none ∧
    part_get_bodystructure (.mk { multipart := true } {} none []) true = none :=
  ⟨rfl, rfl⟩

/-- C1 (amended).  `render_structure` is total — and renders missing leaf
metadata as the documented defaults (`"text"`, `"plain"`, `"8bit"`, `NIL`)
— for every tree in which each multipart part carries metadata with a
subtype and each `message/rfc822` part has exactly one child; a multipart
part with no metadata fails an assertion instead. -/
theorem c1_serializer_total_amended :
    (∀ (p : MessagePart) (e : Bool), renderOk p = true →
       (part_get_bodystructure p e).isSome = true) ∧
    (∀ (sz : MessageSize) (e : Bool),
       part_get_bodystructure (.mk {} sz none []) e =
         some ("\"text\" \"plain\" NIL NIL NIL \"8bit\" " ++
               uintRepr sz.virtual_size ++
               (if e then " NIL NIL NIL" else ""))) := by
  constructor
  · intro p e hok
    exact renderOk_isSome p hok e
  · intro sz e
    cases e with
    | false =>
      simp only [part_get_bodystructure, part_write_one, MessagePart.flags,
        part_write_body, leaf_base, leaf_ext_tail, NVL, paren_or_nil,
        Option.getD]
      simp only [Bool.false_eq_true, if_false, Option.pure_def,
        Option.bind_eq_bind, Option.some_bind, Option.some.injEq]
      apply String.ext
      simp [String.data_append]
    | true =>
      simp only [part_get_bodystructure, part_write_one, MessagePart.flags,
        part_write_body, leaf_base, leaf_ext_tail, NVL, paren_or_nil,
        disposition_field_leaf, Option.getD]
      simp only [Bool.false_eq_true, if_false, if_true, Option.pure_def,
        Option.bind_eq_bind, Option.some_bind, Option.some.injEq]
      apply String.ext
      simp [String.data_append]

/-- C1 witness: the amended totality applied to a concrete well-shaped
tree — a multipart (with subtype metadata) holding one metadata-free
leaf. -/
theorem c1_witness :
    (part_get_bodystructure
      (.mk { multipart := true } {}
        (some { content_subtype := some "\"mixed\"" })
        [.mk { text := true } {} none []]) true).isSome = true :=
  c1_serializer_total_amended.1 _ true (by rfl)

/-- C5.  Whenever the serializer writes a multipart part that has no
children, the children's place is taken by exactly the canonical
placeholder `("text" "plain" ("charset" "us-ascii") NIL NIL "7bit" 0 0)`,
followed by the subtype and (when extended) the multipart tail. -/
theorem c5_empty_multipart_placeholder (f : MessagePartFlags) (sz : MessageSize)
    (d : MessagePartBodyData) (sub : String) (e : Bool)
    (hf : f.multipart = true) (hsub : d.content_subtype = some sub) :
    part_get_bodystructure (.mk f sz (some d) []) e =
      some ("(\"text\" \"plain\" (\"charset\" \"us-ascii\") NIL NIL \"7bit\" 0 0)" ++
            " " ++ sub ++ (if e then multipart_ext_tail d else "")) := by
  simp only [part_get_bodystructure, part_write_one, MessagePart.flags, hf, if_true,
    part_write_body_multipart, EMPTY_BODYSTRUCTURE, hsub, Option.pure_def,
    Option.bind_eq_bind, Option.some_bind, Option.some.injEq]

/-- C5 witness: the placeholder rendering evaluated on a concrete childless
multipart. -/
theorem c5_witness :
    part_get_bodystructure
      (.mk { multipart := true } {} (some { content_subtype := some "\"mixed\"" }) [])
      false =
      some ("(\"text\" \"plain\" (\"charset\" \"us-ascii\") NIL NIL \"7bit\" 0 0)" ++
            " " ++ "\"mixed\"" ++ "") :=
  c5_empty_multipart_placeholder { multipart := true } {} _ _ false rfl rfl

theorem copy_item_isSome (a : ImapArg) :
    (copy_item a).isSome = arg_simple a := by
  cases a <;> rfl

theorem copy4_isSome (a b c d : ImapArg) :
    (copy4 a b c d).isSome =
      (arg_simple a && arg_simple b && arg_simple c && arg_simple d) := by
  cases a <;> cases b <;> cases c <;> cases d <;> rfl

theorem copy_params_items_isSome :
    ∀ sub, (copy_params_items sub).isSome = params_pairs_wf sub := by
  suffices H : ∀ (n : Nat) (sub : List ImapArg), sub.length ≤ n →
      (copy_params_items sub).isSome = params_pairs_wf sub by
    exact fun sub => H sub.length sub (Nat.le_refl _)
  intro n
  induction n with
  | zero =>
    intro sub hlen
    rcases sub with _ | ⟨a, rest0⟩
    · simp [copy_params_items, params_pairs_wf]
    · simp at hlen
  | succ n ih =>
    intro sub hlen
    rcases sub with _ | ⟨a, rest0⟩
    · simp [copy_params_items, params_pairs_wf]
    rcases rest0 with _ | ⟨b, rest⟩
    · cases a <;> simp [copy_params_items, params_pairs_wf]
    cases a with
    | str k =>
      cases b with
      | str v =>
        cases rest with
        | nil => simp [copy_params_items, params_pairs_wf]
        | cons r rs =>
          have hlen2 : (r :: rs).length ≤ n := by
            simp at hlen ⊢
            omega
          have ihr := ih (r :: rs) hlen2
          rcases hcp : copy_params_items (r :: rs) with _ | s <;> rw [hcp] at ihr <;>
            simp [copy_params_items, params_pairs_wf, hcp, ← ihr]
      | nil => simp [copy_params_items, params_pairs_wf]
      | atom s => simp [copy_params_items, params_pairs_wf]
      | list l => simp [copy_params_items, params_pairs_wf]
    | nil => simp [copy_params_items, params_pairs_wf]
    | atom s => simp [copy_params_items, params_pairs_wf]
    | list l => simp [copy_params_items, params_pairs_wf]

theorem params_field_isSome (p : ImapArg) :
    (params_field p).isSome = params_arg_wf p := by
  cases p with
  | list sub => simp [params_field, params_arg_wf, Option.isSome_map',
                  copy_params_items_isSome]
  | nil => rfl
  | atom s => rfl
  | str s => rfl

theorem reduce_isSome_eq_wf :
    (∀ args, (imap_parse_bodystructure_args args).isSome = bs_wf args) ∧
    (∀ args acc, (bs_multipart_rest args acc).isSome = bs_wf_multipart args) := by
  refine imap_parse_bodystructure_args.mutual_induct
    (fun args => (imap_parse_bodystructure_args args).isSome = bs_wf args)
    (fun args acc => (bs_multipart_rest args acc).isSome = bs_wf_multipart args)
    ?_ ?_ ?_ ?_ ?_ ?_
  · -- leading list: multipart classification
    intro l rest ih1 ih2
    rcases hl : imap_parse_bodystructure_args l with _ | inner <;> rw [hl] at ih1
    · simp [imap_parse_bodystructure_args, bs_wf, hl, ← ih1]
    · simp [imap_parse_bodystructure_args, bs_wf, hl, ← ih1,
        ih2 inner]
  · -- leaf level
    intro ty st params a b c d rest2 ihbody
    rw [imap_parse_bodystructure_args.eq_def, bs_wf.eq_def]
    rcases hp : params_field params with _ | s1 <;>
      have hpw := params_field_isSome params <;> rw [hp] at hpw
    · simp [hp, ← hpw]
    rcases h4 : copy4 a b c d with _ | s2 <;>
      have h4w := copy4_isSome a b c d <;> rw [h4] at h4w
    · simp [hp, h4, ← hpw, ← h4w]
    by_cases htext : lowerEq ty "text" = true
    · cases rest2 with
      | nil => simp [hp, h4, ← hpw, ← h4w, htext]
      | cons r rs =>
        cases r <;> simp [hp, h4, ← hpw, ← h4w, htext]
    · by_cases hmsg : (lowerEq ty "message" && lowerEq st "rfc822") = true
      · rcases rest2 with _ | ⟨r1, rest3⟩
        · simp [hp, h4, ← hpw, ← h4w, htext, hmsg]
        rcases r1 with _ | s | s | env <;>
          [(simp [hp, h4, ← hpw, ← h4w, htext, hmsg]);
           (simp [hp, h4, ← hpw, ← h4w, htext, hmsg]);
           (simp [hp, h4, ← hpw, ← h4w, htext, hmsg]);
           skip]
        rcases rest3 with _ | ⟨r2, rest4⟩
        · simp [hp, h4, ← hpw, ← h4w, htext, hmsg]
        rcases r2 with _ | s' | s' | body <;>
          [(simp [hp, h4, ← hpw, ← h4w, htext, hmsg]);
           (simp [hp, h4, ← hpw, ← h4w, htext, hmsg]);
           (simp [hp, h4, ← hpw, ← h4w, htext, hmsg]);
           skip]
        rcases rest4 with _ | ⟨r3, rest5⟩
        · simp [hp, h4, ← hpw, ← h4w, htext, hmsg]
        rcases r3 with _ | la | s' | l' <;>
          [skip;
           (simp only at ihbody;
            rcases hb : imap_parse_bodystructure_args body with _ | sb <;>
              rw [hb] at ihbody <;>
              simp [hp, h4, ← hpw, ← h4w, htext, hmsg, hb, ← ihbody]);
           skip; skip] <;>
          simp [hp, h4, ← hpw, ← h4w, htext, hmsg]
      · simp [hp, h4, ← hpw, ← h4w, htext, hmsg]
  · -- fallthrough of the main function
    intro x h1 h2
    rcases x with _ | ⟨a, rest⟩
    · simp [imap_parse_bodystructure_args, bs_wf]
    cases a with
    | list l => exact absurd rfl (h1 l rest)
    | nil => simp [imap_parse_bodystructure_args, bs_wf]
    | atom s => simp [imap_parse_bodystructure_args, bs_wf]
    | str ty =>
      rcases rest with _ | ⟨a2, rest2⟩
      · simp [imap_parse_bodystructure_args, bs_wf]
      cases a2 with
      | nil => simp [imap_parse_bodystructure_args, bs_wf]
      | atom s => simp [imap_parse_bodystructure_args, bs_wf]
      | list l => simp [imap_parse_bodystructure_args, bs_wf]
      | str st =>
        rcases rest2 with _ | ⟨a3, rest3⟩
        · simp [imap_parse_bodystructure_args, bs_wf]
        rcases rest3 with _ | ⟨a4, rest4⟩
        · simp [imap_parse_bodystructure_args, bs_wf]
        rcases rest4 with _ | ⟨a5, rest5⟩
        · simp [imap_parse_bodystructure_args, bs_wf]
        rcases rest5 with _ | ⟨a6, rest6⟩
        · simp [imap_parse_bodystructure_args, bs_wf]
        rcases rest6 with _ | ⟨a7, rest7⟩
        · simp [imap_parse_bodystructure_args, bs_wf]
        exact absurd rfl (h2 ty st a3 a4 a5 a6 a7 rest7)
  · -- multipart continuation: nested list
    intro l rest acc ih1 ih2
    rcases hl : imap_parse_bodystructure_args l with _ | inner <;> rw [hl] at ih1
    · simp [bs_multipart_rest, bs_wf_multipart, hl, ← ih1]
    · simp [bs_multipart_rest, bs_wf_multipart, hl, ← ih1, ih2 inner]
  · -- multipart continuation: subtype string
    intro s tail acc
    simp [bs_multipart_rest, bs_wf_multipart]
  · -- multipart continuation: fallthrough
    intro x acc h1 h2
    rcases x with _ | ⟨a, rest⟩
    · simp [bs_multipart_rest, bs_wf_multipart]
    cases a with
    | list l => exact absurd rfl (h1 l rest)
    | str s => exact absurd rfl (h2 s rest)
    | nil => simp [bs_multipart_rest, bs_wf_multipart]
    | atom s => simp [bs_multipart_rest, bs_wf_multipart]

/-- C2.  `reduce_structure` fails exactly when the argument tree violates
the level grammar `bs_wf` stated by the specification (fewer than two
items at a level, a wrong argument kind at an expected position, or a
missing required nested list/atom); the `Option` result models the
all-or-nothing abort.  In particular every one-item argument list — such
as a leaf missing its subtype — fails. -/
theorem c2_reduce_malformed :
    (∀ args, (imap_parse_bodystructure_args args).isSome = bs_wf args) ∧
    (∀ a, imap_parse_bodystructure_args [a] = none) := by
  constructor
  · exact reduce_isSome_eq_wf.1
  · intro a
    cases a with
    | nil => simp [imap_parse_bodystructure_args]
    | atom s => simp [imap_parse_bodystructure_args]
    | str s => simp [imap_parse_bodystructure_args]
    | list l =>
      rcases h : imap_parse_bodystructure_args l with _ | inner <;>
        simp [imap_parse_bodystructure_args, bs_multipart_rest, h]

/-- C8 counterexample.  The four fields after type/subtype/params are not
copied "regardless of their argument kind": a parenthesized list in one of
these positions makes the whole reduction fail instead of being copied
through. -/
theorem c8_counterexample :
    imap_parse_bodystructure_args
      [.str "text", .str "plain", .nil, .list [], .nil, .str "7bit",
       .atom "12", .atom "1"] = none := by
  rw [imap_parse_bodystructure_args.eq_def]
  decide

/-- C8 (amended).  In the reducer's leaf branch the four items after the
parameter field are copied through verbatim whenever their kind is `NIL`,
atom or quoted string — with no numeric validation of atoms, whose
literal text is copied whatever it is — while a parenthesized list in one
of these positions fails the whole reduction.  The two concrete runs show
non-numeric atoms copied verbatim into the size and line-count slots. -/
theorem c8_verbatim_copy_amended :
    (∀ s : String, copy_item (.atom s) = some s) ∧
    (∀ s : String, copy_item (.str s) = some ("\"" ++ s ++ "\"")) ∧
    copy_item .nil = some "NIL" ∧
    (∀ l, copy_item (.list l) = none) ∧
    imap_parse_bodystructure_args
      [.str "text", .str "plain", .nil, .nil, .nil, .str "7bit",
       .atom "many", .atom "bogus"] =
      some "\"text\" \"plain\" NIL NIL NIL \"7bit\" many bogus" ∧
    imap_parse_bodystructure_args
      [.str "image", .str "png", .nil, .nil, .nil, .str "base64", .atom "zero"] =
      some "\"image\" \"png\" NIL NIL NIL \"base64\" zero" := by
  refine ⟨fun _ => rfl, fun _ => rfl, rfl, fun _ => rfl, ?_, ?_⟩ <;>
    · rw [imap_parse_bodystructure_args.eq_def]
      decide

/-- C6.  The Content-Language parser never fails on a token stream (for a
nonempty stream it always produces a value; an empty stream leaves the
field unset, which is not a failure), `'('` comment tokens are dropped
without touching the parser state, and the documented example
`en-US, (comment) az-arabic` — tokenized by the external RFC822 tokenizer
into two string-class tokens, a `','` and a pre-bounded comment token —
parses to `"en-US" "az-arabic"`. -/
theorem c6_content_language :
    (∀ tokens, tokens ≠ [] → (parse_content_language tokens).isSome = true) ∧
    (∀ (rest : List Rfc822Token) (q : Bool) (acc : String),
        parse_content_language_loop (.special '(' :: rest) q acc =
          parse_content_language_loop rest q acc) ∧
    parse_content_language
      [.stringTok "en-US", .special ',', .special '(', .stringTok "az-arabic"] =
      some "\"en-US\" \"az-arabic\"" := by
  refine ⟨?_, ?_, ?_⟩
  · intro tokens h
    cases tokens with
    | nil => exact absurd rfl h
    | cons t rest => rfl
  · intro rest q acc
    rfl
  · rfl

/-- C6 witness: the totality clause applied to a concrete one-token
stream. -/
theorem c6_witness :
    (parse_content_language [.stringTok "en"]).isSome = true :=
  c6_content_language.1 [.stringTok "en"] (List.cons_ne_nil _ _)

/-- C9.  For a part whose parent is not `message/rfc822`, `parse_header`
drops a header with no side effect whenever its name has at most 8 bytes
or its first 8 bytes do not case-insensitively spell `Content-` (so the
8-byte name `Content-` itself is dropped and allocates nothing), and a
strictly longer `Content-`-prefixed name always proceeds past the filter,
allocating metadata even from an empty context. -/
theorem c9_header_relevance (h : HeaderLine) (ctx : Option MessagePartBodyData) :
    (h.name.length ≤ 8 ∨ content_prefixed h.name = false →
       parse_header false ctx h = ctx) ∧
    (8 < h.name.length → content_prefixed h.name = true →
       (parse_header false ctx h).isSome = true) := by
  constructor
  · intro hcase
    have hcond : (!false &&
        (decide (h.name.length ≤ 8) || !content_prefixed h.name)) = true := by
      rcases hcase with hlen | hpref
      · simp [hlen]
      · simp [hpref]
    unfold parse_header
    rw [if_pos hcond]
  · intro hlen hpref
    have hcond : (!false &&
        (decide (h.name.length ≤ 8) || !content_prefixed h.name)) = false := by
      simp only [hpref, Bool.not_true, Bool.or_false, Bool.not_false, Bool.true_and,
        decide_eq_false_iff_not]
      omega
    unfold parse_header
    rw [hcond]
    simp only [Bool.false_eq_true, if_false]
    repeat' split
    all_goals rfl

/-- C9 witness: a header named exactly `Content-` (8 bytes) is dropped
from an empty context with no allocation, and `Content-Foo` passes the
filter and allocates metadata. -/
theorem c9_witness :
    parse_header false none { name := "Content-" } = none ∧
    (parse_header false none { name := "Content-Foo" }).isSome = true :=
  ⟨(c9_header_relevance { name := "Content-" } none).1 (Or.inl (by decide)),
   (c9_header_relevance { name := "Content-Foo" } none).2 (by decide) (by decide)⟩

theorem parse_header_preserves (p : Bool) (d : MessagePartBodyData) (h : HeaderLine) :
    ∃ d', parse_header p (some d) h = some d' ∧
      (∀ v, d.content_type = some v → d'.content_type = some v) ∧
      (∀ v, d.content_transfer_encoding = some v →
            d'.content_transfer_encoding = some v) ∧
      (∀ v, d.content_id = some v → d'.content_id = some v) ∧
      (∀ v, d.content_description = some v → d'.content_description = some v) ∧
      (∀ v, d.content_md5 = some v → d'.content_md5 = some v) ∧
      (∀ v w, d.content_disposition = some v → d.content_disposition_params = some w →
         d'.content_disposition = some v ∧ d'.content_disposition_params = some w) := by
  unfold parse_header
  simp only [Option.getD_some]
  repeat' split
  all_goals
    refine ⟨_, rfl, ?_, ?_, ?_, ?_, ?_, ?_⟩ <;>
      first
      | exact fun v hv => hv
      | exact fun v w hv hw => ⟨hv, hw⟩
      | (intro v hv; rename_i hg; simp [hv] at hg)
      | (intro v w hv hw; rename_i hg; simp [hw] at hg)

theorem parse_headers_acc_append (p : Bool) :
    ∀ (hs more : List HeaderLine) (ctx : Option MessagePartBodyData),
      parse_headers_acc p ctx (hs ++ more) =
        parse_headers_acc p (parse_headers_acc p ctx hs) more := by
  intro hs
  induction hs with
  | nil => intro more ctx; rfl
  | cons h hs ih =>
    intro more ctx
    show parse_headers_acc p (parse_header p ctx h) (hs ++ more) = _
    rw [ih]
    rfl

theorem parse_headers_acc_preserves (p : Bool) :
    ∀ (more : List HeaderLine) (d : MessagePartBodyData),
    ∃ d2, parse_headers_acc p (some d) more = some d2 ∧
      (∀ v, d.content_type = some v → d2.content_type = some v) ∧
      (∀ v, d.content_transfer_encoding = some v →
            d2.content_transfer_encoding = some v) ∧
      (∀ v, d.content_id = some v → d2.content_id = some v) ∧
      (∀ v, d.content_description = some v → d2.content_description = some v) ∧
      (∀ v, d.content_md5 = some v → d2.content_md5 = some v) ∧
      (∀ v w, d.content_disposition = some v → d.content_disposition_params = some w →
         d2.content_disposition = some v ∧ d2.content_disposition_params = some w) := by
  intro more
  induction more with
  | nil =>
    intro d
    exact ⟨d, rfl, fun v hv => hv, fun v hv => hv, fun v hv => hv, fun v hv => hv,
      fun v hv => hv, fun v w hv hw => ⟨hv, hw⟩⟩
  | cons h more ih =>
    intro d
    obtain ⟨d', hstep, s1, s2, s3, s4, s5, s6⟩ := parse_header_preserves p d h
    obtain ⟨d2, hrest, t1, t2, t3, t4, t5, t6⟩ := ih d'
    refine ⟨d2, ?_, fun v hv => t1 v (s1 v hv), fun v hv => t2 v (s2 v hv),
      fun v hv => t3 v (s3 v hv), fun v hv => t4 v (s4 v hv),
      fun v hv => t5 v (s5 v hv),
      fun v w hv hw => t6 v w (s6 v w hv hw).1 (s6 v w hv hw).2⟩
    show parse_headers_acc p (parse_header p (some d) h) more = some d2
    rw [hstep]
    exact hrest

/-- C7 counterexample.  The language field is not overwritten on every
Content-Language occurrence: an occurrence whose value tokenizes to no
tokens makes `parse_content_language` return without storing anything
(`count <= 0`), so the previously stored value survives instead of being
replaced by the new occurrence's (absent) result. -/
theorem c7_counterexample :
    parse_content_language [] = none ∧
    parse_header false (some { content_language := some "\"en\"" })
        { name := "Content-Language", lang_tokens := [] } =
      some { content_language := some "\"en\"" } :=
  ⟨rfl, rfl⟩

/-- C7 (amended).  Over every header sequence for one part, each scalar
field — content-type, transfer-encoding, content-id, description,
disposition (with its params), md5 — keeps the value of the first
occurrence of its header: once set, no later header changes it.  The
language field is overwritten by every Content-Language occurrence whose
value has at least one token — regardless of its previous value — while a
token-less occurrence leaves it unchanged. -/
theorem c7_first_wins_amended :
    (∀ (p : Bool) (hs more : List HeaderLine) (d : MessagePartBodyData) (v : String),
       parse_headers p hs = some d → d.content_type = some v →
       ∃ d2, parse_headers p (hs ++ more) = some d2 ∧ d2.content_type = some v) ∧
    (∀ (p : Bool) (hs more : List HeaderLine) (d : MessagePartBodyData) (v : String),
       parse_headers p hs = some d → d.content_transfer_encoding = some v →
       ∃ d2, parse_headers p (hs ++ more) = some d2 ∧
         d2.content_transfer_encoding = some v) ∧
    (∀ (p : Bool) (hs more : List HeaderLine) (d : MessagePartBodyData) (v : String),
       parse_headers p hs = some d → d.content_id = some v →
       ∃ d2, parse_headers p (hs ++ more) = some d2 ∧ d2.content_id = some v) ∧
    (∀ (p : Bool) (hs more : List HeaderLine) (d : MessagePartBodyData) (v : String),
       parse_headers p hs = some d → d.content_description = some v →
       ∃ d2, parse_headers p (hs ++ more) = some d2 ∧ d2.content_description = some v) ∧
    (∀ (p : Bool) (hs more : List HeaderLine) (d : MessagePartBodyData) (v : String),
       parse_headers p hs = some d → d.content_md5 = some v →
       ∃ d2, parse_headers p (hs ++ more) = some d2 ∧ d2.content_md5 = some v) ∧
    (∀ (p : Bool) (hs more : List HeaderLine) (d : MessagePartBodyData) (v w : String),
       parse_headers p hs = some d → d.content_disposition = some v →
       d.content_disposition_params = some w →
       ∃ d2, parse_headers p (hs ++ more) = some d2 ∧
         d2.content_disposition = some v ∧ d2.content_disposition_params = some w) ∧
    (∀ (p : Bool) (d : MessagePartBodyData) (h : HeaderLine),
       h.name = "Content-Language" →
       (h.lang_tokens = [] → parse_header p (some d) h = some d) ∧
       (h.lang_tokens ≠ [] →
         parse_header p (some d) h =
           some { d with
                  content_language := some (parse_content_language_loop h.lang_tokens false "") })) := by
  have main : ∀ (p : Bool) (hs more : List HeaderLine) (d : MessagePartBodyData),
      parse_headers p hs = some d →
      ∃ d2, parse_headers p (hs ++ more) = some d2 ∧
        (∀ v, d.content_type = some v → d2.content_type = some v) ∧
        (∀ v, d.content_transfer_encoding = some v →
              d2.content_transfer_encoding = some v) ∧
        (∀ v, d.content_id = some v → d2.content_id = some v) ∧
        (∀ v, d.content_description = some v → d2.content_description = some v) ∧
        (∀ v, d.content_md5 = some v → d2.content_md5 = some v) ∧
        (∀ v w, d.content_disposition = some v →
           d.content_disposition_params = some w →
           d2.content_disposition = some v ∧ d2.content_disposition_params = some w) := by
    intro p hs more d hd
    obtain ⟨d2, h2, c1, c2, c3, c4, c5, c6⟩ := parse_headers_acc_preserves p more d
    refine ⟨d2, ?_, c1, c2, c3, c4, c5, c6⟩
    show parse_headers_acc p none (hs ++ more) = some d2
    rw [parse_headers_acc_append]
    show parse_headers_acc p (parse_headers p hs) more = some d2
    rw [hd]
    exact h2
  refine ⟨?_, ?_, ?_, ?_, ?_, ?_, ?_⟩
  · intro p hs more d v hd hv
    obtain ⟨d2, h2, c1, _, _, _, _, _⟩ := main p hs more d hd
    exact ⟨d2, h2, c1 v hv⟩
  · intro p hs more d v hd hv
    obtain ⟨d2, h2, _, c2, _, _, _, _⟩ := main p hs more d hd
    exact ⟨d2, h2, c2 v hv⟩
  · intro p hs more d v hd hv
    obtain ⟨d2, h2, _, _, c3, _, _, _⟩ := main p hs more d hd
    exact ⟨d2, h2, c3 v hv⟩
  · intro p hs more d v hd hv
    obtain ⟨d2, h2, _, _, _, c4, _, _⟩ := main p hs more d hd
    exact ⟨d2, h2, c4 v hv⟩
  · intro p hs more d v hd hv
    obtain ⟨d2, h2, _, _, _, _, c5, _⟩ := main p hs more d hd
    exact ⟨d2, h2, c5 v hv⟩
  · intro p hs more d v w hd hv hw
    obtain ⟨d2, h2, _, _, _, _, _, c6⟩ := main p hs more d hd
    exact ⟨d2, h2, (c6 v w hv hw).1, (c6 v w hv hw).2⟩
  · intro p d h hname
    have e0 : (!p && (decide (h.name.length ≤ 8) || !content_prefixed h.name)) = false := by
      rw [hname]
      cases p <;> decide
    have e1 : lowerEq h.name "Content-Type" = false := by rw [hname]; decide
    have e2 : lowerEq h.name "Content-Transfer-Encoding" = false := by rw [hname]; decide
    have e3 : lowerEq h.name "Content-ID" = false := by rw [hname]; decide
    have e4 : lowerEq h.name "Content-Description" = false := by rw [hname]; decide
    have e5 : lowerEq h.name "Content-Disposition" = false := by rw [hname]; decide
    have e6 : lowerEq h.name "Content-Language" = true := by rw [hname]; decide
    constructor
    · intro hemp
      unfold parse_header
      rw [e0]
      simp only [Bool.false_eq_true, if_false, e1, e2, e3, e4, e5, e6,
        Bool.false_and, if_true, hemp]
      rfl
    · intro hne
      unfold parse_header
      rw [e0]
      simp only [Bool.false_eq_true, if_false, e1, e2, e3, e4, e5, e6,
        Bool.false_and, if_true]
      cases hlt : h.lang_tokens with
      | nil => exact absurd hlt hne
      | cons t ts => rfl

/-- C7 witness: with a first Content-Type header stored, a second
Content-Type occurrence leaves the stored type unchanged. -/
theorem c7_witness :
    ∃ d2, parse_headers false
        ([{ name := "Content-Type", ct_type := "\"text\"", ct_subtype := "\"plain\"" }] ++
         [{ name := "Content-Type", ct_type := "\"image\"", ct_subtype := "\"png\"" }]) =
        some d2 ∧ d2.content_type = some "\"text\"" :=
  c7_first_wins_amended.1 false
    [{ name := "Content-Type", ct_type := "\"text\"", ct_subtype := "\"plain\"" }]
    [{ name := "Content-Type", ct_type := "\"image\"", ct_subtype := "\"png\"" }]
    { content_type := some "\"text\"", content_subtype := some "\"plain\"",
      content_type_params := some "" }
    "\"text\"" rfl rfl

/-- C3.  Field-wise, at every node, the unextended rendering is a prefix
of the extended rendering: `partFields` lists the chunks the serializer
emits for one part (with child runs kept structural, rendered under the
same flag), the first clause proves this field view faithful to the
writer, and the second clause proves that the `extended=false` field list
of every node is a list prefix of its `extended=true` field list — the
extended mode only appends the trailing md5/disposition/language
(for multiparts params/disposition/language) fields. -/
theorem c3_unextended_fieldwise_prefix :
    (∀ (p : MessagePart) (e : Bool),
        part_write_one p e = (partFields p e).bind (flattenFields e)) ∧
    (∀ (p : MessagePart) (fs1 fs2 : List RField),
        partFields p false = some fs1 → partFields p true = some fs2 →
        ∃ tail, fs1 ++ tail = fs2) := by
  constructor
  · intro p e
    obtain ⟨⟨mp, tx, rf⟩, sz, ctx, children⟩ := p
    cases mp with
    | true =>
      cases ctx with
      | none =>
        simp [part_write_one, MessagePart.flags, partFields, part_write_body_multipart]
      | some d =>
        cases hsub : d.content_subtype with
        | none =>
          cases children with
          | nil =>
            simp [part_write_one, MessagePart.flags, partFields,
              part_write_body_multipart, hsub, flattenFields]
          | cons c cs =>
            rcases hsib : part_write_bodystructure_siblings (c :: cs) e with _ | ks <;>
              simp [part_write_one, MessagePart.flags, partFields,
                part_write_body_multipart, hsub, hsib, flattenFields]
        | some sub =>
          cases children with
          | nil =>
            cases e <;>
              simp [part_write_one, MessagePart.flags, partFields,
                part_write_body_multipart, hsub, flattenFields,
                String.append_assoc, String.append_empty]
          | cons c cs =>
            rcases hsib : part_write_bodystructure_siblings (c :: cs) e with _ | ks <;>
              cases e <;>
              simp [part_write_one, MessagePart.flags, partFields,
                part_write_body_multipart, hsub, hsib, flattenFields,
                String.append_assoc, String.append_empty]
    | false =>
      cases tx with
      | true =>
        cases e <;>
          simp [part_write_one, MessagePart.flags, partFields, part_write_body,
            flattenFields, String.append_assoc, String.append_empty]
      | false =>
        cases rf with
        | true =>
          cases children with
          | nil =>
            simp [part_write_one, MessagePart.flags, partFields, part_write_body,
              flattenFields]
          | cons c cs =>
            cases cs with
            | cons c2 cs2 =>
              simp [part_write_one, MessagePart.flags, partFields, part_write_body,
                flattenFields]
            | nil =>
              rcases hsib : part_write_bodystructure_siblings [c] e with _ | ks <;>
                cases e <;>
                simp [part_write_one, MessagePart.flags, partFields, part_write_body,
                  flattenFields, hsib, String.append_assoc, String.append_empty]
        | false =>
          cases e <;>
            simp [part_write_one, MessagePart.flags, partFields, part_write_body,
              flattenFields, String.append_assoc, String.append_empty]
  · intro p fs1 fs2 h1 h2
    obtain ⟨⟨mp, tx, rf⟩, sz, ctx, children⟩ := p
    cases mp with
    | true =>
      cases ctx with
      | none => simp [partFields] at h1
      | some d =>
        cases hsub : d.content_subtype with
        | none => simp [partFields, hsub] at h1
        | some sub =>
          simp [partFields, hsub] at h1 h2
          subst h1
          subst h2
          exact ⟨[RField.lit (multipart_ext_tail d)], by simp⟩
    | false =>
      cases tx with
      | true =>
        simp [partFields] at h1 h2
        subst h1
        subst h2
        exact ⟨[RField.lit (leaf_ext_tail (ctx.getD {}))], by simp⟩
      | false =>
        cases rf with
        | true =>
          cases children with
          | nil => simp [partFields] at h1
          | cons c cs =>
            cases cs with
            | cons c2 cs2 => simp [partFields] at h1
            | nil =>
              simp [partFields] at h1 h2
              subst h1
              subst h2
              exact ⟨[RField.lit (leaf_ext_tail (ctx.getD {}))], by simp⟩
        | false =>
          simp [partFields] at h1 h2
          subst h1
          subst h2
          exact ⟨[RField.lit (leaf_ext_tail (ctx.getD {}))], by simp⟩

/-- C3 witness: the prefix clause applied to a concrete text leaf. -/
theorem c3_witness :
    ∃ tail,
      [RField.lit (leaf_base {} { virtual_size := 1, lines := 2 }),
       RField.lit (" " ++ uintRepr 2)] ++ tail =
      [RField.lit (leaf_base {} { virtual_size := 1, lines := 2 }),
       RField.lit (" " ++ uintRepr 2), RField.lit (leaf_ext_tail {})] :=
  c3_unextended_fieldwise_prefix.2
    (.mk { text := true } { virtual_size := 1, lines := 2 } none []) _ _ rfl rfl

/-! Equation lemmas for the well-founded mutual definitions, in the form
the round-trip proofs use. -/

theorem flattenBS_arg_nil : flattenBS_arg .nil = "NIL" := by
  rw [flattenBS_arg.eq_def]

theorem flattenBS_arg_atom (s : String) : flattenBS_arg (.atom s) = s := by
  rw [flattenBS_arg.eq_def]

theorem flattenBS_arg_str (s : String) :
    flattenBS_arg (.str s) = "\"" ++ s ++ "\"" := by
  rw [flattenBS_arg.eq_def]

theorem flattenBS_arg_list (l : List ImapArg) :
    flattenBS_arg (.list l) = "(" ++ flattenBS_args l ++ ")" := by
  rw [flattenBS_arg.eq_def]

theorem flattenBS_args_nil : flattenBS_args [] = "" := by
  rw [flattenBS_args.eq_def]
  show flattenBS_spaced [] = ""
  rw [flattenBS_spaced.eq_def]

theorem flattenBS_args_list (l : List ImapArg) (rest : List ImapArg) :
    flattenBS_args (.list l :: rest) =
      "(" ++ flattenBS_args l ++ ")" ++ flattenBS_tail rest := by
  rw [flattenBS_args.eq_def]

theorem flattenBS_args_spaced (a : ImapArg) (rest : List ImapArg)
    (h : ∀ l, a ≠ .list l) :
    flattenBS_args (a :: rest) = flattenBS_spaced (a :: rest) := by
  rw [flattenBS_args.eq_def]
  cases a with
  | list l => exact absurd rfl (h l)
  | nil => rfl
  | atom s => rfl
  | str s => rfl

theorem flattenBS_tail_nil : flattenBS_tail [] = "" := by
  rw [flattenBS_tail.eq_def]

theorem flattenBS_tail_list (l : List ImapArg) (rest : List ImapArg) :
    flattenBS_tail (.list l :: rest) =
      "(" ++ flattenBS_args l ++ ")" ++ flattenBS_tail rest := by
  rw [flattenBS_tail.eq_def]

theorem flattenBS_tail_spaced (a : ImapArg) (rest : List ImapArg)
    (h : ∀ l, a ≠ .list l) :
    flattenBS_tail (a :: rest) = " " ++ flattenBS_spaced (a :: rest) := by
  rw [flattenBS_tail.eq_def]
  cases a with
  | list l => exact absurd rfl (h l)
  | nil => rfl
  | atom s => rfl
  | str s => rfl

theorem flattenBS_spaced_nil : flattenBS_spaced [] = "" := by
  rw [flattenBS_spaced.eq_def]

theorem flattenBS_spaced_one (a : ImapArg) :
    flattenBS_spaced [a] = flattenBS_arg a := by
  rw [flattenBS_spaced.eq_def]

theorem flattenBS_spaced_cons (a b : ImapArg) (rest : List ImapArg) :
    flattenBS_spaced (a :: b :: rest) =
      flattenBS_arg a ++ " " ++ flattenBS_spaced (b :: rest) := by
  rw [flattenBS_spaced.eq_def]

theorem bs_noRfc822_list (l : List ImapArg) (rest : List ImapArg) :
    bs_noRfc822 (.list l :: rest) = (bs_noRfc822 l && bs_noRfc822_tail rest) := by
  rw [bs_noRfc822.eq_def]

theorem bs_noRfc822_leaf (ty st : String) (rest : List ImapArg) :
    bs_noRfc822 (.str ty :: .str st :: rest) =
      !(lowerEq ty "message" && lowerEq st "rfc822") := by
  rw [bs_noRfc822.eq_def]

theorem bs_noRfc822_tail_list (l : List ImapArg) (rest : List ImapArg) :
    bs_noRfc822_tail (.list l :: rest) =
      (bs_noRfc822 l && bs_noRfc822_tail rest) := by
  rw [bs_noRfc822_tail.eq_def]

theorem bs_noRfc822_tail_str (s : String) (rest : List ImapArg) :
    bs_noRfc822_tail (.str s :: rest) = true := by
  rw [bs_noRfc822_tail.eq_def]

/-! Scanner lemmas for the modelled argument parser. -/

/-- The first character of the remaining input, when the input does not
continue an atom (end of input, or a delimiter character). -/
def headSpecial : List Char → Bool
  | [] => true
  | c :: _ => atom_special c

/-- Whether the text after one flattened argument may start as `rest`
does without extending the argument's token: atoms and `NIL` need a
delimiter (or the end), quoted strings and lists are self-delimiting. -/
def delimOkArg : ImapArg → List Char → Bool
  | .atom _, rest => headSpecial rest
  | .nil, rest => headSpecial rest
  | _, _ => true

theorem scanAtom_append (chars rest : List Char)
    (hc : ∀ c ∈ chars, atom_special c = false)
    (hr : headSpecial rest = true) :
    scanAtom (chars ++ rest) = (chars, rest) := by
  induction chars with
  | nil =>
    cases rest with
    | nil => rfl
    | cons c cs =>
      have : atom_special c = true := hr
      simp [scanAtom, this]
  | cons c cs ih =>
    have hc0 : atom_special c = false := hc c (List.mem_cons_self c cs)
    have ih' := ih (fun x hx => hc x (List.mem_cons_of_mem c hx))
    simp [scanAtom, hc0, ih']

theorem scanQuoted_append :
    ∀ (content rest : List Char), quotedOkChars content = true →
    scanQuoted (content ++ '"' :: rest) = some (content, rest) := by
  suffices H : ∀ (n : Nat) (content rest : List Char), content.length ≤ n →
      quotedOkChars content = true →
      scanQuoted (content ++ '"' :: rest) = some (content, rest) by
    exact fun content rest h => H content.length content rest (Nat.le_refl _) h
  intro n
  induction n with
  | zero =>
    intro content rest hlen h
    rcases content with _ | ⟨c, cc⟩
    · simp [scanQuoted]
    · simp at hlen
  | succ n ih =>
    intro content rest hlen h
    rcases content with _ | ⟨c, cc⟩
    · simp [scanQuoted]
    by_cases hbs : c = '\\'
    · subst hbs
      rcases cc with _ | ⟨c2, cc2⟩
      · simp [quotedOkChars, quotedOkAfterEsc] at h
      · have h2 : quotedOkChars cc2 = true := by
          simpa [quotedOkChars, quotedOkAfterEsc] using h
        have hlen2 : cc2.length ≤ n := by simp at hlen; omega
        simp [scanQuoted, scanQuotedEsc, ih cc2 rest hlen2 h2]
    · by_cases hq : c = '"'
      · subst hq
        simp [quotedOkChars] at h
      · have h2 : quotedOkChars cc = true := by
          simpa [quotedOkChars, hbs, hq] using h
        have hlen2 : cc.length ≤ n := by simp at hlen; omega
        simp [scanQuoted, hbs, hq, ih cc rest hlen2 h2]

theorem parseListItems_closeParen (fuel : Nat) (h : 1 ≤ fuel) (rest : List Char) :
    parseListItems fuel (')' :: rest) = some ([], rest) := by
  cases fuel with
  | zero => omega
  | succ f => simp [parseListItems]

theorem parseListItems_space (fuel : Nat) (rest : List Char) :
    parseListItems (fuel + 1) (' ' :: rest) = parseListItems fuel rest := by
  simp [parseListItems]

theorem parseTopItems_space (fuel : Nat) (rest : List Char) :
    parseTopItems (fuel + 1) (' ' :: rest) = parseTopItems fuel rest := by
  simp [parseTopItems]

theorem stringMkData (s : String) : String.mk s.data = s := rfl

theorem flattenBS_arg_head (a : ImapArg) (h : argCanonical a = true) :
    ∃ c cc, (flattenBS_arg a).data = c :: cc ∧ ¬ c = ')' ∧ ¬ c = ' ' := by
  cases a with
  | nil =>
    refine ⟨'N', ['I', 'L'], ?_, by decide, by decide⟩
    rw [flattenBS_arg_nil]
  | atom s =>
    simp [argCanonical] at h
    obtain ⟨⟨h1, h2⟩, -⟩ := h
    cases hd : s.data with
    | nil => rw [hd] at h1; simp at h1
    | cons c cc =>
      have hs := h2 c (by rw [hd]; exact List.mem_cons_self c cc)
      simp [atom_special] at hs
      refine ⟨c, cc, ?_, hs.1.2, hs.1.1.1⟩
      rw [flattenBS_arg_atom, hd]
  | str s =>
    refine ⟨'"', s.data ++ ['"'], ?_, by decide, by decide⟩
    simp [flattenBS_arg_str, String.data_append]
  | list l =>
    refine ⟨'(', (flattenBS_args l).data ++ [')'], ?_, by decide, by decide⟩
    simp [flattenBS_arg_list, String.data_append]

theorem flattenBS_arg_len_pos (a : ImapArg) (h : argCanonical a = true) :
    1 ≤ (flattenBS_arg a).data.length := by
  obtain ⟨c, cc, hd, -, -⟩ := flattenBS_arg_head a h
  simp [hd]

theorem delimOkArg_special (a : ImapArg) (c : Char) (rest : List Char)
    (h : atom_special c = true) : delimOkArg a (c :: rest) = true := by
  cases a <;> simp [delimOkArg, headSpecial, h]

theorem delimOkArg_nilrest (a : ImapArg) : delimOkArg a [] = true := by
  cases a <;> simp [delimOkArg, headSpecial]

/-- The round trip between reduce-shaped flattening and the modelled
argument parser: parsing the flattened text of canonical argument trees
recovers them exactly, with fuel at least twice the text length. -/
theorem parse_roundtrip :
    ∀ fuel : Nat,
    (∀ (a : ImapArg) (rest : List Char), argCanonical a = true →
       delimOkArg a rest = true →
       2 * (flattenBS_arg a).data.length ≤ fuel →
       parseOne fuel ((flattenBS_arg a).data ++ rest) = some (a, rest)) ∧
    (∀ (l : List ImapArg) (rest : List Char), argsCanonical l = true →
       2 * (flattenBS_args l).data.length + 1 ≤ fuel →
       parseListItems fuel ((flattenBS_args l).data ++ ')' :: rest) = some (l, rest)) ∧
    (∀ (l : List ImapArg) (rest : List Char), argsCanonical l = true →
       2 * (flattenBS_tail l).data.length + 1 ≤ fuel →
       parseListItems fuel ((flattenBS_tail l).data ++ ')' :: rest) = some (l, rest)) ∧
    (∀ (l : List ImapArg) (rest : List Char), argsCanonical l = true →
       2 * (flattenBS_spaced l).data.length + 1 ≤ fuel →
       parseListItems fuel ((flattenBS_spaced l).data ++ ')' :: rest) = some (l, rest)) ∧
    (∀ (l : List ImapArg), argsCanonical l = true →
       2 * (flattenBS_args l).data.length + 1 ≤ fuel →
       parseTopItems fuel (flattenBS_args l).data = some l) ∧
    (∀ (l : List ImapArg), argsCanonical l = true →
       2 * (flattenBS_tail l).data.length + 1 ≤ fuel →
       parseTopItems fuel (flattenBS_tail l).data = some l) ∧
    (∀ (l : List ImapArg), argsCanonical l = true →
       2 * (flattenBS_spaced l).data.length + 1 ≤ fuel →
       parseTopItems fuel (flattenBS_spaced l).data = some l) := by
  intro fuel
  induction fuel using Nat.strong_induction_on with
  | _ fuel ih =>
  have hP1 : ∀ (a : ImapArg) (rest : List Char), argCanonical a = true →
      delimOkArg a rest = true →
      2 * (flattenBS_arg a).data.length ≤ fuel →
      parseOne fuel ((flattenBS_arg a).data ++ rest) = some (a, rest) := by
    intro a rest hca hdel hb
    have hpos := flattenBS_arg_len_pos a hca
    obtain ⟨f, rfl⟩ : ∃ f, fuel = f + 1 := ⟨fuel - 1, by omega⟩
    cases a with
    | nil =>
      rw [flattenBS_arg_nil]
      have hscan : scanAtom (['N', 'I', 'L'] ++ rest) = (['N', 'I', 'L'], rest) :=
        scanAtom_append _ _ (by decide) hdel
      simp only [List.cons_append, List.nil_append] at hscan
      show parseOne (f + 1) ('N' :: 'I' :: 'L' :: rest) = some (.nil, rest)
      simp [parseOne, hscan]
    | atom s =>
      rw [flattenBS_arg_atom]
      simp [argCanonical] at hca
      obtain ⟨⟨h1, h2⟩, h3⟩ := hca
      cases hd : s.data with
      | nil => rw [hd] at h1; simp at h1
      | cons c cc =>
        have hall : ∀ x ∈ c :: cc, atom_special x = false := by
          rw [← hd]; exact h2
        have hcs := hall c (List.mem_cons_self c cc)
        simp [atom_special] at hcs
        have hscan : scanAtom ((c :: cc) ++ rest) = (c :: cc, rest) :=
          scanAtom_append _ _ hall hdel
        simp only [List.cons_append] at hscan
        have hmk : String.mk (c :: cc) = s := by rw [← hd]
        show parseOne (f + 1) (c :: (cc ++ rest)) = some (.atom s, rest)
        simp [parseOne, hcs.1.1.2, hcs.2, hscan, hmk, h3]
    | str s =>
      rw [flattenBS_arg_str]
      have hq : quotedOkChars s.data = true := by simpa [argCanonical] using hca
      have hscan := scanQuoted_append s.data rest hq
      have hdata : ("\"" ++ s ++ "\"").data ++ rest = '"' :: (s.data ++ '"' :: rest) := by
        simp [String.data_append]
      rw [hdata]
      simp [parseOne, hscan, stringMkData]
    | list l =>
      rw [flattenBS_arg_list] at hb ⊢
      have hlc : argsCanonical l = true := by simpa [argCanonical] using hca
      simp [String.data_append] at hb
      obtain ⟨-, hP2f, -⟩ := ih f (by omega)
      have hitems := hP2f l rest hlc (by simp; omega)
      have hdata : ("(" ++ flattenBS_args l ++ ")").data ++ rest =
          '(' :: ((flattenBS_args l).data ++ ')' :: rest) := by
        simp [String.data_append]
      rw [hdata]
      simp [parseOne, hitems]
  have hlistcase : ∀ (x : List ImapArg) (r2 : List ImapArg) (rest : List Char),
      argCanonical (.list x) = true → argsCanonical r2 = true →
      2 * ("(" ++ flattenBS_args x ++ ")" ++ flattenBS_tail r2).data.length + 1 ≤ fuel →
      parseListItems fuel
          (("(" ++ flattenBS_args x ++ ")" ++ flattenBS_tail r2).data ++ ')' :: rest) =
        some (.list x :: r2, rest) := by
    intro x r2 rest hcx hcr hb
    simp [String.data_append] at hb
    obtain ⟨f, rfl⟩ : ∃ f, fuel = f + 1 := ⟨fuel - 1, by omega⟩
    obtain ⟨hP1f, -, hP3f, -⟩ := ih f (by omega)
    have hone := hP1f (.list x) ((flattenBS_tail r2).data ++ ')' :: rest) hcx
      (by simp [delimOkArg])
      (by rw [flattenBS_arg_list]; simp [String.data_append]; omega)
    have htail := hP3f r2 rest hcr (by simp; omega)
    rw [flattenBS_arg_list] at hone
    have hdata : ("(" ++ flattenBS_args x ++ ")" ++ flattenBS_tail r2).data ++ ')' :: rest =
        '(' :: ((flattenBS_args x).data ++ ')' ::
          ((flattenBS_tail r2).data ++ ')' :: rest)) := by
      simp [String.data_append]
    have hdata2 : ("(" ++ flattenBS_args x ++ ")").data ++
        ((flattenBS_tail r2).data ++ ')' :: rest) =
        '(' :: ((flattenBS_args x).data ++ ')' ::
          ((flattenBS_tail r2).data ++ ')' :: rest)) := by
      simp [String.data_append]
    rw [hdata2] at hone
    rw [hdata]
    simp [parseListItems, hone, htail]
  have hP4 : ∀ (l : List ImapArg) (rest : List Char), argsCanonical l = true →
      2 * (flattenBS_spaced l).data.length + 1 ≤ fuel →
      parseListItems fuel ((flattenBS_spaced l).data ++ ')' :: rest) = some (l, rest) := by
    intro l rest hc hb
    cases l with
    | nil =>
      rw [flattenBS_spaced_nil] at hb ⊢
      show parseListItems fuel (')' :: rest) = some ([], rest)
      exact parseListItems_closeParen fuel (by omega) rest
    | cons a l2 =>
      have hc' : argCanonical a = true ∧ argsCanonical l2 = true := by
        simpa [argsCanonical] using hc
      obtain ⟨c0, cc0, hhead, hnp, hns⟩ := flattenBS_arg_head a hc'.1
      cases l2 with
      | nil =>
        rw [flattenBS_spaced_one] at hb ⊢
        have hpos : 1 ≤ (flattenBS_arg a).data.length := flattenBS_arg_len_pos a hc'.1
        obtain ⟨f, rfl⟩ : ∃ f, fuel = f + 1 := ⟨fuel - 1, by omega⟩
        obtain ⟨hP1f, -⟩ := ih f (by omega)
        have hone := hP1f a (')' :: rest) hc'.1
          (delimOkArg_special _ _ _ (by decide)) (by omega)
        have hclose := parseListItems_closeParen f (by omega) rest
        rw [hhead] at hone ⊢
        simp only [List.cons_append] at hone ⊢
        simp [parseListItems, hnp, hns, hone, hclose]
      | cons b l3 =>
        rw [flattenBS_spaced_cons] at hb ⊢
        simp [String.data_append] at hb
        have hpos := flattenBS_arg_len_pos a hc'.1
        obtain ⟨f, rfl⟩ : ∃ f, fuel = f + 1 := ⟨fuel - 1, by omega⟩
        obtain ⟨hP1f, -⟩ := ih f (by omega)
        obtain ⟨f2, rfl⟩ : ∃ f2, f = f2 + 1 := ⟨f - 1, by omega⟩
        obtain ⟨-, -, -, hP4f2, -⟩ := ih f2 (by omega)
        have hone := hP1f a
          (' ' :: ((flattenBS_spaced (b :: l3)).data ++ ')' :: rest)) hc'.1
          (delimOkArg_special _ _ _ (by decide)) (by simp; omega)
        have hrest := hP4f2 (b :: l3) rest hc'.2 (by simp; omega)
        have hdata : ((flattenBS_arg a ++ " ") ++ flattenBS_spaced (b :: l3)).data ++
            ')' :: rest =
            (flattenBS_arg a).data ++
              (' ' :: ((flattenBS_spaced (b :: l3)).data ++ ')' :: rest)) := by
          simp [String.data_append]
        rw [hdata, hhead] at *
        simp only [List.cons_append] at hone ⊢
        simp [parseListItems, hnp, hns, hone, parseListItems_space, hrest]
  have htailspaced : ∀ (a : ImapArg) (l2 : List ImapArg) (rest : List Char),
      (∀ y, a ≠ .list y) → argsCanonical (a :: l2) = true →
      2 * (flattenBS_tail (a :: l2)).data.length + 1 ≤ fuel →
      parseListItems fuel ((flattenBS_tail (a :: l2)).data ++ ')' :: rest) =
        some (a :: l2, rest) := by
    intro a l2 rest hnl hc hb
    rw [flattenBS_tail_spaced a l2 hnl] at hb ⊢
    simp [String.data_append] at hb
    obtain ⟨f, rfl⟩ : ∃ f, fuel = f + 1 := ⟨fuel - 1, by omega⟩
    obtain ⟨-, -, -, hP4f, -⟩ := ih f (by omega)
    have hrest := hP4f (a :: l2) rest hc (by simp; omega)
    have hdata : (" " ++ flattenBS_spaced (a :: l2)).data ++ ')' :: rest =
        ' ' :: ((flattenBS_spaced (a :: l2)).data ++ ')' :: rest) := by
      simp [String.data_append]
    rw [hdata]
    rw [parseListItems_space]
    exact hrest
  have hP3 : ∀ (l : List ImapArg) (rest : List Char), argsCanonical l = true →
      2 * (flattenBS_tail l).data.length + 1 ≤ fuel →
      parseListItems fuel ((flattenBS_tail l).data ++ ')' :: rest) = some (l, rest) := by
    intro l rest hc hb
    cases l with
    | nil =>
      rw [flattenBS_tail_nil] at hb ⊢
      show parseListItems fuel (')' :: rest) = some ([], rest)
      exact parseListItems_closeParen fuel (by omega) rest
    | cons a l2 =>
      have hc' : argCanonical a = true ∧ argsCanonical l2 = true := by
        simpa [argsCanonical] using hc
      cases a with
      | list x =>
        rw [flattenBS_tail_list] at hb ⊢
        exact hlistcase x l2 rest hc'.1 hc'.2 hb
      | nil => exact htailspaced _ l2 rest (fun y h => ImapArg.noConfusion h) hc hb
      | atom s => exact htailspaced _ l2 rest (fun y h => ImapArg.noConfusion h) hc hb
      | str s => exact htailspaced _ l2 rest (fun y h => ImapArg.noConfusion h) hc hb
  have hP2 : ∀ (l : List ImapArg) (rest : List Char), argsCanonical l = true →
      2 * (flattenBS_args l).data.length + 1 ≤ fuel →
      parseListItems fuel ((flattenBS_args l).data ++ ')' :: rest) = some (l, rest) := by
    intro l rest hc hb
    cases l with
    | nil =>
      rw [flattenBS_args_nil] at hb ⊢
      show parseListItems fuel (')' :: rest) = some ([], rest)
      exact parseListItems_closeParen fuel (by omega) rest
    | cons a l2 =>
      have hc' : argCanonical a = true ∧ argsCanonical l2 = true := by
        simpa [argsCanonical] using hc
      cases a with
      | list x =>
        rw [flattenBS_args_list] at hb ⊢
        exact hlistcase x l2 rest hc'.1 hc'.2 hb
      | nil =>
        rw [flattenBS_args_spaced _ _ (fun y h => ImapArg.noConfusion h)] at hb ⊢
        exact hP4 _ rest hc hb
      | atom s =>
        rw [flattenBS_args_spaced _ _ (fun y h => ImapArg.noConfusion h)] at hb ⊢
        exact hP4 _ rest hc hb
      | str s =>
        rw [flattenBS_args_spaced _ _ (fun y h => ImapArg.noConfusion h)] at hb ⊢
        exact hP4 _ rest hc hb
  have hlistcaseTop : ∀ (x : List ImapArg) (r2 : List ImapArg),
      argCanonical (.list x) = true → argsCanonical r2 = true →
      2 * ("(" ++ flattenBS_args x ++ ")" ++ flattenBS_tail r2).data.length + 1 ≤ fuel →
      parseTopItems fuel ("(" ++ flattenBS_args x ++ ")" ++ flattenBS_tail r2).data =
        some (.list x :: r2) := by
    intro x r2 hcx hcr hb
    simp [String.data_append] at hb
    obtain ⟨f, rfl⟩ : ∃ f, fuel = f + 1 := ⟨fuel - 1, by omega⟩
    obtain ⟨hP1f, -, hP3f, -, -, hT6f, -⟩ := ih f (by omega)
    have hone := hP1f (.list x) (flattenBS_tail r2).data hcx
      (by simp [delimOkArg])
      (by rw [flattenBS_arg_list]; simp [String.data_append]; omega)
    have htail := hT6f r2 hcr (by simp; omega)
    rw [flattenBS_arg_list] at hone
    have hdata : ("(" ++ flattenBS_args x ++ ")" ++ flattenBS_tail r2).data =
        '(' :: ((flattenBS_args x).data ++ ')' :: (flattenBS_tail r2).data) := by
      simp [String.data_append]
    have hdata2 : ("(" ++ flattenBS_args x ++ ")").data ++ (flattenBS_tail r2).data =
        '(' :: ((flattenBS_args x).data ++ ')' :: (flattenBS_tail r2).data) := by
      simp [String.data_append]
    rw [hdata2] at hone
    rw [hdata]
    simp [parseTopItems, hone, htail]
  have hT7 : ∀ (l : List ImapArg), argsCanonical l = true →
      2 * (flattenBS_spaced l).data.length + 1 ≤ fuel →
      parseTopItems fuel (flattenBS_spaced l).data = some l := by
    intro l hc hb
    cases l with
    | nil =>
      rw [flattenBS_spaced_nil] at hb ⊢
      obtain ⟨f, rfl⟩ : ∃ f, fuel = f + 1 := ⟨fuel - 1, by omega⟩
      show parseTopItems (f + 1) [] = some []
      simp [parseTopItems]
    | cons a l2 =>
      have hc' : argCanonical a = true ∧ argsCanonical l2 = true := by
        simpa [argsCanonical] using hc
      obtain ⟨c0, cc0, hhead, hnp, hns⟩ := flattenBS_arg_head a hc'.1
      cases l2 with
      | nil =>
        rw [flattenBS_spaced_one] at hb ⊢
        have hpos : 1 ≤ (flattenBS_arg a).data.length := flattenBS_arg_len_pos a hc'.1
        obtain ⟨f, rfl⟩ : ∃ f, fuel = f + 1 := ⟨fuel - 1, by omega⟩
        obtain ⟨hP1f, -⟩ := ih f (by omega)
        have hone := hP1f a [] hc'.1 (delimOkArg_nilrest a) (by omega)
        simp only [List.append_nil] at hone
        have hend : parseTopItems f ([] : List Char) = some [] := by
          obtain ⟨f2, rfl⟩ : ∃ f2, f = f2 + 1 := ⟨f - 1, by omega⟩
          simp [parseTopItems]
        rw [hhead] at hone ⊢
        simp [parseTopItems, hnp, hns, hone, hend]
      | cons b l3 =>
        rw [flattenBS_spaced_cons] at hb ⊢
        simp [String.data_append] at hb
        have hpos := flattenBS_arg_len_pos a hc'.1
        obtain ⟨f, rfl⟩ : ∃ f, fuel = f + 1 := ⟨fuel - 1, by omega⟩
        obtain ⟨hP1f, -⟩ := ih f (by omega)
        obtain ⟨f2, rfl⟩ : ∃ f2, f = f2 + 1 := ⟨f - 1, by omega⟩
        obtain ⟨-, -, -, -, -, -, hT7f2⟩ := ih f2 (by omega)
        have hone := hP1f a (' ' :: (flattenBS_spaced (b :: l3)).data) hc'.1
          (delimOkArg_special _ _ _ (by decide)) (by simp; omega)
        have hrest := hT7f2 (b :: l3) hc'.2 (by simp; omega)
        have hdata : ((flattenBS_arg a ++ " ") ++ flattenBS_spaced (b :: l3)).data =
            (flattenBS_arg a).data ++ (' ' :: (flattenBS_spaced (b :: l3)).data) := by
          simp [String.data_append]
        rw [hdata, hhead] at *
        simp only [List.cons_append] at hone ⊢
        simp [parseTopItems, hnp, hns, hone, parseTopItems_space, hrest]
  have hT6 : ∀ (l : List ImapArg), argsCanonical l = true →
      2 * (flattenBS_tail l).data.length + 1 ≤ fuel →
      parseTopItems fuel (flattenBS_tail l).data = some l := by
    intro l hc hb
    cases l with
    | nil =>
      rw [flattenBS_tail_nil] at hb ⊢
      obtain ⟨f, rfl⟩ : ∃ f, fuel = f + 1 := ⟨fuel - 1, by omega⟩
      show parseTopItems (f + 1) [] = some []
      simp [parseTopItems]
    | cons a l2 =>
      have hc' : argCanonical a = true ∧ argsCanonical l2 = true := by
        simpa [argsCanonical] using hc
      cases a with
      | list x =>
        rw [flattenBS_tail_list] at hb ⊢
        exact hlistcaseTop x l2 hc'.1 hc'.2 hb
      | nil =>
        rw [flattenBS_tail_spaced _ _ (fun y h => ImapArg.noConfusion h)] at hb ⊢
        simp [String.data_append] at hb
        obtain ⟨f, rfl⟩ : ∃ f, fuel = f + 1 := ⟨fuel - 1, by omega⟩
        obtain ⟨-, -, -, -, -, -, hT7f⟩ := ih f (by omega)
        have hdata : (" " ++ flattenBS_spaced (.nil :: l2)).data =
            ' ' :: (flattenBS_spaced (.nil :: l2)).data := by
          simp [String.data_append]
        rw [hdata, parseTopItems_space]
        exact hT7f _ hc (by simp; omega)
      | atom s =>
        rw [flattenBS_tail_spaced _ _ (fun y h => ImapArg.noConfusion h)] at hb ⊢
        simp [String.data_append] at hb
        obtain ⟨f, rfl⟩ : ∃ f, fuel = f + 1 := ⟨fuel - 1, by omega⟩
        obtain ⟨-, -, -, -, -, -, hT7f⟩ := ih f (by omega)
        have hdata : (" " ++ flattenBS_spaced (.atom s :: l2)).data =
            ' ' :: (flattenBS_spaced (.atom s :: l2)).data := by
          simp [String.data_append]
        rw [hdata, parseTopItems_space]
        exact hT7f _ hc (by simp; omega)
      | str s =>
        rw [flattenBS_tail_spaced _ _ (fun y h => ImapArg.noConfusion h)] at hb ⊢
        simp [String.data_append] at hb
        obtain ⟨f, rfl⟩ : ∃ f, fuel = f + 1 := ⟨fuel - 1, by omega⟩
        obtain ⟨-, -, -, -, -, -, hT7f⟩ := ih f (by omega)
        have hdata : (" " ++ flattenBS_spaced (.str s :: l2)).data =
            ' ' :: (flattenBS_spaced (.str s :: l2)).data := by
          simp [String.data_append]
        rw [hdata, parseTopItems_space]
        exact hT7f _ hc (by simp; omega)
  have hT5 : ∀ (l : List ImapArg), argsCanonical l = true →
      2 * (flattenBS_args l).data.length + 1 ≤ fuel →
      parseTopItems fuel (flattenBS_args l).data = some l := by
    intro l hc hb
    cases l with
    | nil =>
      rw [flattenBS_args_nil] at hb ⊢
      obtain ⟨f, rfl⟩ : ∃ f, fuel = f + 1 := ⟨fuel - 1, by omega⟩
      show parseTopItems (f + 1) [] = some []
      simp [parseTopItems]
    | cons a l2 =>
      have hc' : argCanonical a = true ∧ argsCanonical l2 = true := by
        simpa [argsCanonical] using hc
      cases a with
      | list x =>
        rw [flattenBS_args_list] at hb ⊢
        exact hlistcaseTop x l2 hc'.1 hc'.2 hb
      | nil =>
        rw [flattenBS_args_spaced _ _ (fun y h => ImapArg.noConfusion h)] at hb ⊢
        exact hT7 _ hc hb
      | atom s =>
        rw [flattenBS_args_spaced _ _ (fun y h => ImapArg.noConfusion h)] at hb ⊢
        exact hT7 _ hc hb
      | str s =>
        rw [flattenBS_args_spaced _ _ (fun y h => ImapArg.noConfusion h)] at hb ⊢
        exact hT7 _ hc hb
  exact ⟨hP1, hP2, hP3, hP4, hT5, hT6, hT7⟩

/-! ### Relating the reducer output to the reduce-shaped flattening -/

theorem copy_item_flatten (a : ImapArg) (sa : String)
    (h : copy_item a = some sa) : flattenBS_arg a = sa := by
  cases a with
  | nil =>
    simp [copy_item] at h
    rw [flattenBS_arg_nil, h]
  | atom s =>
    simp [copy_item] at h
    rw [flattenBS_arg_atom, h]
  | str s =>
    simp [copy_item] at h
    rw [flattenBS_arg_str, h]
  | list l => simp [copy_item] at h

theorem copy_params_flatten :
    ∀ (sub : List ImapArg) (p : String),
      copy_params_items sub = some p → flattenBS_spaced sub = p := by
  suffices H : ∀ (n : Nat) (sub : List ImapArg) (p : String), sub.length ≤ n →
      copy_params_items sub = some p → flattenBS_spaced sub = p by
    intro sub p h
    exact H sub.length sub p le_rfl h
  intro n
  induction n with
  | zero =>
    intro sub p hl h
    rcases sub with _ | ⟨a, rest⟩
    · simp [copy_params_items] at h
      rw [flattenBS_spaced_nil, h]
    · simp at hl
  | succ n ihn =>
    intro sub p hl h
    rcases sub with _ | ⟨k0, rest0⟩
    · simp [copy_params_items] at h
      rw [flattenBS_spaced_nil, h]
    rcases k0 with _ | s | k | l
    · simp [copy_params_items] at h
    · simp [copy_params_items] at h
    case str =>
      rcases rest0 with _ | ⟨v0, rest1⟩
      · simp [copy_params_items] at h
      rcases v0 with _ | s | v | l
      · simp [copy_params_items] at h
      · simp [copy_params_items] at h
      case str =>
        rcases rest1 with _ | ⟨r1, rest2⟩
        · simp [copy_params_items] at h
          rw [flattenBS_spaced_cons, flattenBS_spaced_one,
              flattenBS_arg_str, flattenBS_arg_str, ← h]
          apply String.ext
          simp [String.data_append]
        · rcases hc : copy_params_items (r1 :: rest2) with _ | p'
          · simp [copy_params_items, hc] at h
          · simp [copy_params_items, hc] at h
            have hrec := ihn (r1 :: rest2) p' (by simp at hl ⊢; omega) hc
            rw [flattenBS_spaced_cons, flattenBS_spaced_cons,
                flattenBS_arg_str, flattenBS_arg_str, hrec, ← h]
            apply String.ext
            simp [String.data_append]
      · simp [copy_params_items] at h
    · simp [copy_params_items] at h

theorem params_field_flatten (params : ImapArg) (s1 : String)
    (h : params_field params = some s1) :
    s1 = " " ++ flattenBS_arg params := by
  cases params with
  | nil =>
    simp [params_field] at h
    rw [flattenBS_arg_nil, ← h]
    rfl
  | atom s => simp [params_field] at h
  | str s => simp [params_field] at h
  | list sub =>
    simp [params_field] at h
    obtain ⟨p, hp, hs⟩ := h
    have hflat := copy_params_flatten sub p hp
    have hspaced : flattenBS_args sub = flattenBS_spaced sub := by
      rcases sub with _ | ⟨a, rest⟩
      · rw [flattenBS_args_nil, flattenBS_spaced_nil]
      rcases a with _ | s | s | l
      · exact flattenBS_args_spaced _ _ (by intro l h; simp at h)
      · exact flattenBS_args_spaced _ _ (by intro l h; simp at h)
      · exact flattenBS_args_spaced _ _ (by intro l h; simp at h)
      · simp [copy_params_items] at hp
    rw [flattenBS_arg_list, hspaced, hflat, ← hs]
    apply String.ext
    simp [String.data_append]

theorem copy4_flatten (a b c d : ImapArg) (s2 : String)
    (h : copy4 a b c d = some s2) :
    s2 = " " ++ flattenBS_arg a ++ " " ++ flattenBS_arg b ++ " " ++
         flattenBS_arg c ++ " " ++ flattenBS_arg d := by
  rcases ha : copy_item a with _ | sa
  · simp [copy4, ha] at h
  rcases hb : copy_item b with _ | sb
  · simp [copy4, ha, hb] at h
  rcases hc : copy_item c with _ | sc
  · simp [copy4, ha, hb, hc] at h
  rcases hd : copy_item d with _ | sd
  · simp [copy4, ha, hb, hc, hd] at h
  simp [copy4, ha, hb, hc, hd] at h
  rw [copy_item_flatten a sa ha, copy_item_flatten b sb hb,
      copy_item_flatten c sc hc, copy_item_flatten d sd hd, ← h]

/-! ### The argument parser only produces canonical trees -/

theorem scanAtom_nonspecial :
    ∀ (cs a r : List Char), scanAtom cs = (a, r) →
      ∀ x ∈ a, atom_special x = false := by
  intro cs
  induction cs with
  | nil =>
    intro a r h x hx
    simp [scanAtom] at h
    obtain ⟨rfl, rfl⟩ := h
    simp at hx
  | cons c rest ih =>
    intro a r h x hx
    by_cases hs : atom_special c = true
    · simp [scanAtom, hs] at h
      obtain ⟨rfl, rfl⟩ := h
      simp at hx
    · have hsf : atom_special c = false := by simpa using hs
      rcases hsc : scanAtom rest with ⟨a2, r2⟩
      simp [scanAtom, hsf, hsc] at h
      obtain ⟨rfl, rfl⟩ := h
      rcases List.mem_cons.1 hx with rfl | hx2
      · exact hsf
      · exact ih a2 r2 hsc x hx2

theorem scanQuoted_okChars :
    ∀ (n : Nat),
      (∀ (cs s r : List Char), cs.length ≤ n → scanQuoted cs = some (s, r) →
         quotedOkChars s = true) ∧
      (∀ (cs s r : List Char), cs.length ≤ n → scanQuotedEsc cs = some (s, r) →
         quotedOkChars s = true) := by
  intro n
  induction n with
  | zero =>
    constructor
    · intro cs s r hl h
      rw [List.length_eq_zero.1 (Nat.le_zero.1 hl)] at h
      simp [scanQuoted] at h
    · intro cs s r hl h
      rw [List.length_eq_zero.1 (Nat.le_zero.1 hl)] at h
      simp [scanQuotedEsc] at h
  | succ n ihn =>
    constructor
    · intro cs s r hl h
      rcases cs with _ | ⟨c, rest⟩
      · simp [scanQuoted] at h
      by_cases hbs : c = '\\'
      · rw [hbs] at h
        simp only [scanQuoted, if_pos rfl] at h
        exact ihn.2 rest s r (by simp at hl; omega) h
      · by_cases hq : c = '"'
        · rw [hq] at h
          simp [scanQuoted] at h
          obtain ⟨rfl, rfl⟩ := h
          rw [quotedOkChars.eq_def]
        · rcases hsc : scanQuoted rest with _ | ⟨s2, r2⟩
          · simp [scanQuoted, hbs, hq, hsc] at h
          · simp [scanQuoted, hbs, hq, hsc] at h
            obtain ⟨rfl, rfl⟩ := h
            rw [quotedOkChars.eq_def]
            simp [hbs, hq]
            exact ihn.1 rest s2 r2 (by simp at hl; omega) hsc
    · intro cs s r hl h
      rcases cs with _ | ⟨c2, rest2⟩
      · simp [scanQuotedEsc] at h
      rcases hsc : scanQuoted rest2 with _ | ⟨s2, r2⟩
      · simp [scanQuotedEsc, hsc] at h
      · simp [scanQuotedEsc, hsc] at h
        obtain ⟨rfl, rfl⟩ := h
        rw [quotedOkChars.eq_def]
        simp
        rw [quotedOkAfterEsc.eq_def]
        exact ihn.1 rest2 s2 r2 (by simp at hl; omega) hsc

theorem parser_canonical :
    ∀ (fuel : Nat),
      (∀ (cs : List Char) (a : ImapArg) (r : List Char),
         parseOne fuel cs = some (a, r) → argCanonical a = true) ∧
      (∀ (cs : List Char) (l : List ImapArg) (r : List Char),
         parseListItems fuel cs = some (l, r) → argsCanonical l = true) ∧
      (∀ (cs : List Char) (l : List ImapArg),
         parseTopItems fuel cs = some l → argsCanonical l = true) := by
  intro fuel
  induction fuel with
  | zero =>
    refine ⟨?_, ?_, ?_⟩ <;> intro cs
    · intro a r h; simp [parseOne] at h
    · intro l r h; simp [parseListItems] at h
    · intro l h; simp [parseTopItems] at h
  | succ f ih =>
    refine ⟨?_, ?_, ?_⟩
    · intro cs a r h
      rcases cs with _ | ⟨c, rest⟩
      · simp [parseOne] at h
      by_cases hp : c = '('
      · rw [hp] at h
        rcases hli : parseListItems f rest with _ | ⟨l2, r2⟩ <;>
          simp [parseOne, hli] at h
        obtain ⟨rfl, rfl⟩ := h
        have := ih.2.1 rest l2 r2 hli
        rw [argCanonical.eq_def]
        exact this
      · by_cases hq : c = '"'
        · rw [hq] at h
          rcases hsc : scanQuoted rest with _ | ⟨s2, r2⟩ <;>
            simp [parseOne, hsc] at h
          obtain ⟨rfl, rfl⟩ := h
          have := (scanQuoted_okChars rest.length).1 rest s2 r2 le_rfl hsc
          rw [argCanonical.eq_def]
          exact this
        · rcases hsc : scanAtom (c :: rest) with ⟨a2, r2⟩
          rcases a2 with _ | ⟨a0, as⟩
          · simp [parseOne, hp, hq, hsc] at h
          · simp only [parseOne, if_neg hp, if_neg hq, hsc] at h
            simp at h
            by_cases hnil : String.mk (a0 :: as) = "NIL"
            · rw [if_pos hnil] at h
              obtain ⟨rfl, rfl⟩ := h
              rw [argCanonical.eq_def]
            · rw [if_neg hnil] at h
              obtain ⟨rfl, rfl⟩ := h
              rw [argCanonical.eq_def]
              simp only [Bool.and_eq_true]
              refine ⟨⟨?_, ?_⟩, ?_⟩
              · simp
              · simp only [List.all_eq_true]
                intro x hx
                have hns := scanAtom_nonspecial (c :: rest) (a0 :: as) r2 hsc x hx
                simp [hns]
              · simp [hnil]
    · intro cs l r h
      rcases cs with _ | ⟨c, rest⟩
      · simp [parseListItems] at h
      by_cases hcp : c = ')'
      · rw [hcp] at h
        simp [parseListItems] at h
        obtain ⟨rfl, rfl⟩ := h
        rw [argsCanonical.eq_def]
      · by_cases hsp : c = ' '
        · rw [hsp] at h
          simp only [parseListItems, if_neg (by decide : ¬(' ' = ')')),
            if_pos rfl] at h
          exact ih.2.1 rest l r h
        · simp only [parseListItems, if_neg hcp, if_neg hsp] at h
          rcases hone : parseOne f (c :: rest) with _ | ⟨a2, r2⟩ <;>
            rw [hone] at h
          · simp at h
          simp only [Option.bind_eq_bind, Option.some_bind] at h
          rcases hrest : parseListItems f r2 with _ | ⟨l2, r3⟩ <;>
            rw [hrest] at h <;> simp at h
          obtain ⟨rfl, rfl⟩ := h
          rw [argsCanonical.eq_def]
          simp only [Bool.and_eq_true]
          exact ⟨ih.1 (c :: rest) a2 r2 hone, ih.2.1 r2 l2 r3 hrest⟩
    · intro cs l h
      rcases cs with _ | ⟨c, rest⟩
      · simp [parseTopItems] at h
        obtain rfl := h.symm
        rw [argsCanonical.eq_def]
      by_cases hsp : c = ' '
      · rw [hsp] at h
        simp only [parseTopItems, if_pos rfl] at h
        exact ih.2.2 rest l h
      · simp only [parseTopItems, if_neg hsp] at h
        rcases hone : parseOne f (c :: rest) with _ | ⟨a2, r2⟩ <;>
          rw [hone] at h
        · simp at h
        simp only [Option.bind_eq_bind, Option.some_bind] at h
        rcases hrest : parseTopItems f r2 with _ | l2 <;>
          rw [hrest] at h <;> simp at h
        obtain rfl := h.symm
        rw [argsCanonical.eq_def]
        simp only [Bool.and_eq_true]
        exact ⟨ih.1 (c :: rest) a2 r2 hone, ih.2.2 r2 l2 hrest⟩

/-- Parsing the flattened text of a canonical argument list with the
modelled argument parser recovers the list exactly. -/
theorem flatten_reparse (A : List ImapArg) (h : argsCanonical A = true) :
    imap_parser_read_args_model (flattenBS_args A) = some A := by
  have hrt := (parse_roundtrip (4 * (flattenBS_args A).data.length + 4)).2.2.2.2.1
  exact hrt A h (by omega)

/-- Every successful reducer output is the flattening of a canonical
argument list that contains no `message/rfc822` level, reduces to the
same output, and (for the multipart continuation) does so under any
accumulator. -/
theorem reduce_output_reparse :
    (∀ args, argsCanonical args = true → bs_noRfc822 args = true →
       ∀ s, imap_parse_bodystructure_args args = some s →
       ∃ A, argsCanonical A = true ∧ bs_noRfc822 A = true ∧
            flattenBS_args A = s ∧ imap_parse_bodystructure_args A = some s) ∧
    (∀ args acc, argsCanonical args = true → bs_noRfc822_tail args = true →
       ∀ out, bs_multipart_rest args acc = some out →
       ∃ T, argsCanonical T = true ∧ bs_noRfc822_tail T = true ∧
            (∀ acc2, bs_multipart_rest T acc2 = some (acc2 ++ flattenBS_tail T)) ∧
            out = acc ++ flattenBS_tail T) := by
  refine imap_parse_bodystructure_args.mutual_induct
    (fun args => argsCanonical args = true → bs_noRfc822 args = true →
       ∀ s, imap_parse_bodystructure_args args = some s →
       ∃ A, argsCanonical A = true ∧ bs_noRfc822 A = true ∧
            flattenBS_args A = s ∧ imap_parse_bodystructure_args A = some s)
    (fun args acc => argsCanonical args = true → bs_noRfc822_tail args = true →
       ∀ out, bs_multipart_rest args acc = some out →
       ∃ T, argsCanonical T = true ∧ bs_noRfc822_tail T = true ∧
            (∀ acc2, bs_multipart_rest T acc2 = some (acc2 ++ flattenBS_tail T)) ∧
            out = acc ++ flattenBS_tail T)
    ?_ ?_ ?_ ?_ ?_ ?_
  · -- leading list: multipart level
    intro l rest ih1 ih2 hc hr s hred
    simp only [argsCanonical, argCanonical, Bool.and_eq_true] at hc
    obtain ⟨hcl, hcr⟩ := hc
    rw [bs_noRfc822_list] at hr
    simp only [Bool.and_eq_true] at hr
    obtain ⟨hrl, hrr⟩ := hr
    rcases hl : imap_parse_bodystructure_args l with _ | inner
    · simp [imap_parse_bodystructure_args, hl] at hred
    simp only [imap_parse_bodystructure_args, hl, Option.bind_eq_bind,
      Option.some_bind] at hred
    obtain ⟨Al, hAc, hAr, hAf, hAred⟩ := ih1 hcl hrl inner hl
    obtain ⟨T, hTc, hTr, hTstep, hTout⟩ := ih2 inner hcr hrr s hred
    refine ⟨.list Al :: T, ?_, ?_, ?_, ?_⟩
    · simp [argsCanonical, argCanonical, hAc, hTc]
    · rw [bs_noRfc822_list]
      simp [hAr, hTr]
    · rw [flattenBS_args_list, hAf, hTout]
    · simp only [imap_parse_bodystructure_args, hAred, Option.bind_eq_bind,
        Option.some_bind]
      rw [hTstep ("(" ++ inner ++ ")"), hTout]
  · -- leaf level
    intro ty st params a b c d rest2 ihbody hc hr s hred
    simp only [argsCanonical, Bool.and_eq_true] at hc
    obtain ⟨hcty, hcst, hcp, hca, hcb, hcc, hcd, hcr2⟩ := hc
    rw [bs_noRfc822_leaf] at hr
    rw [imap_parse_bodystructure_args.eq_def] at hred
    rcases hp : params_field params with _ | s1
    · simp [hp] at hred
    have hs1 : s1 = " " ++ flattenBS_arg params := params_field_flatten params s1 hp
    rcases h4 : copy4 a b c d with _ | s2
    · simp [hp, h4] at hred
    have hs2 : s2 = " " ++ flattenBS_arg a ++ " " ++ flattenBS_arg b ++ " " ++
        flattenBS_arg c ++ " " ++ flattenBS_arg d := copy4_flatten a b c d s2 h4
    have hnotlist : ∀ (x : ImapArg), copy_item x = some "" → True := fun _ _ => trivial
    by_cases htext : lowerEq ty "text" = true
    · rcases rest2 with _ | ⟨r1, rest3⟩
      · simp [hp, h4, htext] at hred
      rcases r1 with _ | la | sx | lx
      · simp [hp, h4, htext] at hred
      · simp only [hp, h4, htext, Option.bind_eq_bind, Option.some_bind,
          if_true, Option.some.injEq] at hred
        simp only [argsCanonical, Bool.and_eq_true] at hcr2
        refine ⟨.str ty :: .str st :: params :: a :: b :: c :: d :: [.atom la],
          ?_, ?_, ?_, ?_⟩
        · simp [argsCanonical, hcty, hcst, hcp, hca, hcb, hcc, hcd, hcr2.1]
        · rw [bs_noRfc822_leaf]
          exact hr
        · rw [flattenBS_args_spaced _ _ (by intro l h; simp at h),
            flattenBS_spaced_cons, flattenBS_spaced_cons, flattenBS_spaced_cons,
            flattenBS_spaced_cons, flattenBS_spaced_cons, flattenBS_spaced_cons,
            flattenBS_spaced_cons, flattenBS_spaced_one,
            flattenBS_arg_str, flattenBS_arg_str, flattenBS_arg_atom, ← hred,
            hs1, hs2]
          apply String.ext
          simp [String.data_append]
        · rw [imap_parse_bodystructure_args.eq_def]
          simp only [hp, h4, htext, Option.bind_eq_bind, Option.some_bind,
            if_true, Option.some.injEq]
          exact hred
      · simp [hp, h4, htext] at hred
      · simp [hp, h4, htext] at hred
    · by_cases hmsg : (lowerEq ty "message" && lowerEq st "rfc822") = true
      · rw [hmsg] at hr
        simp at hr
      · simp only [hp, h4, htext, hmsg, Option.bind_eq_bind, Option.some_bind,
          if_false, Bool.false_eq_true, Option.some.injEq] at hred
        refine ⟨[.str ty, .str st, params, a, b, c, d], ?_, ?_, ?_, ?_⟩
        · simp [argsCanonical, hcty, hcst, hcp, hca, hcb, hcc, hcd]
        · rw [bs_noRfc822_leaf]
          exact hr
        · rw [flattenBS_args_spaced _ _ (by intro l h; simp at h),
            flattenBS_spaced_cons, flattenBS_spaced_cons, flattenBS_spaced_cons,
            flattenBS_spaced_cons, flattenBS_spaced_cons, flattenBS_spaced_cons,
            flattenBS_spaced_one, flattenBS_arg_str, flattenBS_arg_str, ← hred,
            hs1, hs2]
          apply String.ext
          simp [String.data_append]
        · rw [imap_parse_bodystructure_args.eq_def]
          simp only [hp, h4, htext, hmsg, Option.bind_eq_bind, Option.some_bind,
            if_false, Bool.false_eq_true, Option.some.injEq]
          exact hred
  · -- main fallthrough: no level shape matched
    intro x h1 h2 hc hr s hred
    rcases x with _ | ⟨a, rest⟩
    · simp [imap_parse_bodystructure_args] at hred
    cases a with
    | list l => exact absurd rfl (h1 l rest)
    | nil => simp [imap_parse_bodystructure_args] at hred
    | atom s2 => simp [imap_parse_bodystructure_args] at hred
    | str ty =>
      rcases rest with _ | ⟨a2, rest2⟩
      · simp [imap_parse_bodystructure_args] at hred
      cases a2 with
      | nil => simp [imap_parse_bodystructure_args] at hred
      | atom s2 => simp [imap_parse_bodystructure_args] at hred
      | list l => simp [imap_parse_bodystructure_args] at hred
      | str st =>
        rcases rest2 with _ | ⟨a3, rest3⟩
        · simp [imap_parse_bodystructure_args] at hred
        rcases rest3 with _ | ⟨a4, rest4⟩
        · simp [imap_parse_bodystructure_args] at hred
        rcases rest4 with _ | ⟨a5, rest5⟩
        · simp [imap_parse_bodystructure_args] at hred
        rcases rest5 with _ | ⟨a6, rest6⟩
        · simp [imap_parse_bodystructure_args] at hred
        rcases rest6 with _ | ⟨a7, rest7⟩
        · simp [imap_parse_bodystructure_args] at hred
        exact absurd rfl (h2 ty st a3 a4 a5 a6 a7 rest7)
  · -- multipart continuation: nested list
    intro l rest acc ih1 ih2 hc hr out hout
    simp only [argsCanonical, argCanonical, Bool.and_eq_true] at hc
    obtain ⟨hcl, hcr⟩ := hc
    rw [bs_noRfc822_tail_list] at hr
    simp only [Bool.and_eq_true] at hr
    obtain ⟨hrl, hrr⟩ := hr
    rcases hl : imap_parse_bodystructure_args l with _ | inner
    · simp [bs_multipart_rest, hl] at hout
    simp only [bs_multipart_rest, hl, Option.bind_eq_bind,
      Option.some_bind] at hout
    obtain ⟨Al, hAc, hAr, hAf, hAred⟩ := ih1 hcl hrl inner hl
    obtain ⟨T, hTc, hTr, hTstep, hTout⟩ := ih2 inner hcr hrr out hout
    refine ⟨.list Al :: T, ?_, ?_, ?_, ?_⟩
    · simp [argsCanonical, argCanonical, hAc, hTc]
    · rw [bs_noRfc822_tail_list]
      simp [hAr, hTr]
    · intro acc2
      simp only [bs_multipart_rest, hAred, Option.bind_eq_bind,
        Option.some_bind]
      rw [flattenBS_tail_list, hAf, hTstep (acc2 ++ "(" ++ inner ++ ")")]
      simp only [Option.some.injEq]
      apply String.ext
      simp [String.data_append]
    · rw [flattenBS_tail_list, hAf, hTout]
      apply String.ext
      simp [String.data_append]
  · -- multipart continuation: subtype string
    intro s2 tail acc hc hr out hout
    simp only [argsCanonical, Bool.and_eq_true] at hc
    simp only [bs_multipart_rest, Option.some.injEq] at hout
    refine ⟨[.str s2], ?_, ?_, ?_, ?_⟩
    · simp [argsCanonical, hc.1]
    · rw [bs_noRfc822_tail_str]
    · intro acc2
      simp only [bs_multipart_rest, Option.some.injEq]
      rw [flattenBS_tail_spaced _ _ (by intro l h; simp at h),
        flattenBS_spaced_one, flattenBS_arg_str]
      apply String.ext
      simp [String.data_append]
    · rw [flattenBS_tail_spaced _ _ (by intro l h; simp at h),
        flattenBS_spaced_one, flattenBS_arg_str, ← hout]
      apply String.ext
      simp [String.data_append]
  · -- multipart continuation: fallthrough
    intro x acc h1 h2 hc hr out hout
    rcases x with _ | ⟨a, rest⟩
    · simp [bs_multipart_rest] at hout
    cases a with
    | list l => exact absurd rfl (h1 l rest)
    | str s2 => exact absurd rfl (h2 s2 rest)
    | nil => simp [bs_multipart_rest] at hout
    | atom s2 => simp [bs_multipart_rest] at hout

/-- C10 counterexample.  Reduction is not idempotent on its successes: on
a `message/rfc822` structure the reducer splices the reduced inner
bodystructure into its output without parentheses (lines 554-574 append
`sb` bare), so re-running the parse-and-reduce pipeline on the reduced
output `B` fails instead of returning `B`. -/
theorem c10_counterexample :
    imap_parse_bodystructure_args
      [.str "message", .str "rfc822", .nil, .nil, .nil, .str "7bit", .atom "4",
       .list [.nil],
       .list [.str "text", .str "plain", .nil, .nil, .nil, .str "7bit",
              .atom "4", .atom "1"],
       .atom "2"] =
      some "\"message\" \"rfc822\" NIL NIL NIL \"7bit\" 4 (NIL) \"text\" \"plain\" NIL NIL NIL \"7bit\" 4 1 2" ∧
    imap_body_parse_from_bodystructure
      "\"message\" \"rfc822\" NIL NIL NIL \"7bit\" 4 (NIL) \"text\" \"plain\" NIL NIL NIL \"7bit\" 4 1 2" =
      none := by
  have henv : imap_write_list [ImapArg.nil] = "(NIL)" := by
    rw [imap_write_list]
    rw [imap_write_list_items.eq_def]
    show "(" ++ imap_write_arg ImapArg.nil ++ ")" = "(NIL)"
    rw [imap_write_arg.eq_def]
    decide
  have hA2c : argsCanonical
      [.str "message", .str "rfc822", .nil, .nil, .nil, .str "7bit", .atom "4",
       .list [.nil], .str "text", .str "plain", .nil, .nil, .nil, .str "7bit",
       .atom "4", .atom "1", .atom "2"] = true := by
    simp [argsCanonical, argCanonical, quotedOkChars, quotedOkAfterEsc,
      atom_special]
  have hnil1 : flattenBS_args [ImapArg.nil] = "NIL" := by
    rw [flattenBS_args_spaced _ _ (by intro l h; simp at h),
      flattenBS_spaced_one, flattenBS_arg_nil]
  have hflat : flattenBS_args
      [.str "message", .str "rfc822", .nil, .nil, .nil, .str "7bit", .atom "4",
       .list [.nil], .str "text", .str "plain", .nil, .nil, .nil, .str "7bit",
       .atom "4", .atom "1", .atom "2"] =
      "\"message\" \"rfc822\" NIL NIL NIL \"7bit\" 4 (NIL) \"text\" \"plain\" NIL NIL NIL \"7bit\" 4 1 2" := by
    rw [flattenBS_args_spaced _ _ (by intro l h; simp at h)]
    simp only [flattenBS_spaced_cons, flattenBS_spaced_one, flattenBS_arg_str,
      flattenBS_arg_nil, flattenBS_arg_atom, flattenBS_arg_list, hnil1]
    decide
  constructor
  · simp only [imap_parse_bodystructure_args, henv, Option.bind_eq_bind]
    decide
  · rw [← hflat]
    show (imap_parser_read_args_model _).bind imap_parse_bodystructure_args = none
    rw [flatten_reparse _ hA2c]
    simp only [Option.bind_eq_bind, Option.some_bind]
    simp only [imap_parse_bodystructure_args]
    decide

/-- C10 (amended).  Reduction is idempotent on every success whose parsed
argument tree contains no `message/rfc822` level: if the stored text
parses to `args`, `args` has no rfc822 leaf level, and the reducer yields
`B`, then the full parse-and-reduce pipeline maps `B` back to `B`.  (The
claim's unrestricted statement is refuted by `c10_counterexample`.) -/
theorem c10_reduce_idempotent_amended (s B : String) (args : List ImapArg)
    (hp : imap_parser_read_args_model s = some args)
    (hnr : bs_noRfc822 args = true)
    (hred : imap_parse_bodystructure_args args = some B) :
    imap_body_parse_from_bodystructure B = some B := by
  have hcanon : argsCanonical args = true :=
    (parser_canonical (4 * s.data.length + 4)).2.2 s.data args hp
  obtain ⟨A, hAc, hAr, hAf, hAred⟩ := reduce_output_reparse.1 args hcanon hnr B hred
  rw [← hAf]
  show (imap_parser_read_args_model _).bind imap_parse_bodystructure_args =
    some (flattenBS_args A)
  rw [flatten_reparse A hAc]
  simp only [Option.bind_eq_bind, Option.some_bind]
  rw [hAred, hAf]

/-- C10 witness: the amended idempotence theorem applied to a concrete
text leaf structure. -/
theorem c10_witness :
    imap_body_parse_from_bodystructure
      "\"text\" \"plain\" NIL NIL NIL \"7bit\" 4 1" =
    some "\"text\" \"plain\" NIL NIL NIL \"7bit\" 4 1" := by
  have hAc : argsCanonical
      [.str "text", .str "plain", .nil, .nil, .nil, .str "7bit",
       .atom "4", .atom "1"] = true := by
    simp [argsCanonical, argCanonical, quotedOkChars, quotedOkAfterEsc,
      atom_special]
  have hflat : flattenBS_args
      [.str "text", .str "plain", .nil, .nil, .nil, .str "7bit",
       .atom "4", .atom "1"] = "\"text\" \"plain\" NIL NIL NIL \"7bit\" 4 1" := by
    rw [flattenBS_args_spaced _ _ (by intro l h; simp at h)]
    simp only [flattenBS_spaced_cons, flattenBS_spaced_one, flattenBS_arg_str,
      flattenBS_arg_nil, flattenBS_arg_atom]
    decide
  refine c10_reduce_idempotent_amended
    "\"text\" \"plain\" NIL NIL NIL \"7bit\" 4 1"
    "\"text\" \"plain\" NIL NIL NIL \"7bit\" 4 1"
    [.str "text", .str "plain", .nil, .nil, .nil, .str "7bit",
     .atom "4", .atom "1"] ?_ ?_ ?_
  · rw [← hflat]
    exact flatten_reparse _ hAc
  · rw [bs_noRfc822_leaf]
    decide
  · simp only [imap_parse_bodystructure_args]
    decide

/-! ### Decimal atoms are canonical -/

theorem decCharsCore_mem :
    ∀ (fuel n : Nat) (acc : List Char) (c : Char),
      c ∈ decCharsCore fuel n acc → (∃ d, d < 10 ∧ c = digitChar d) ∨ c ∈ acc := by
  intro fuel
  induction fuel with
  | zero =>
    intro n acc c h
    right
    simpa [decCharsCore] using h
  | succ f ih =>
    intro n acc c h
    by_cases hn : n < 10
    · simp only [decCharsCore, if_pos hn] at h
      rcases List.mem_cons.1 h with rfl | h2
      · exact Or.inl ⟨n, hn, rfl⟩
      · exact Or.inr h2
    · simp only [decCharsCore, if_neg hn] at h
      rcases ih (n / 10) (digitChar (n % 10) :: acc) c h with h1 | h2
      · exact Or.inl h1
      · rcases List.mem_cons.1 h2 with rfl | h3
        · exact Or.inl ⟨n % 10, Nat.mod_lt _ (by omega), rfl⟩
        · exact Or.inr h3

theorem decCharsCore_len :
    ∀ (fuel n : Nat) (acc : List Char),
      acc.length ≤ (decCharsCore fuel n acc).length := by
  intro fuel
  induction fuel with
  | zero => intro n acc; simp [decCharsCore]
  | succ f ih =>
    intro n acc
    by_cases hn : n < 10
    · simp [decCharsCore, hn]
    · simp only [decCharsCore, if_neg hn]
      have := ih (n / 10) (digitChar (n % 10) :: acc)
      simp at this
      omega

theorem uintRepr_ne_empty (n : Nat) : (uintRepr n).data ≠ [] := by
  show decCharsCore (n + 1) n [] ≠ []
  by_cases hn : n < 10
  · simp [decCharsCore, hn]
  · simp only [decCharsCore, if_neg hn]
    intro h
    have hlen := decCharsCore_len n (n / 10) [digitChar (n % 10)]
    rw [h] at hlen
    simp at hlen

theorem digitChar_nonspecial (d : Nat) (hd : d < 10) :
    atom_special (digitChar d) = false := by
  interval_cases d <;> decide

theorem uintRepr_ne_NIL (n : Nat) : uintRepr n ≠ "NIL" := by
  intro h
  have hN : 'N' ∈ (uintRepr n).data := by
    rw [h]
    decide
  rcases decCharsCore_mem (n + 1) n [] 'N' hN with ⟨d, hd, hc⟩ | h2
  · interval_cases d <;> exact absurd hc (by decide)
  · simp at h2

theorem uintRepr_canonical (n : Nat) :
    argCanonical (.atom (uintRepr n)) = true := by
  rw [argCanonical.eq_def]
  simp only [Bool.and_eq_true]
  refine ⟨⟨?_, ?_⟩, ?_⟩
  · have h := uintRepr_ne_empty n
    cases he : (uintRepr n).data
    · exact absurd he h
    · simp [List.isEmpty, he]
  · simp only [List.all_eq_true]
    intro c hc
    rcases decCharsCore_mem (n + 1) n [] c hc with ⟨d, hd, rfl⟩ | h2
    · simp [digitChar_nonspecial d hd]
    · simp at h2
  · simp [uintRepr_ne_NIL n]

/-- C4.  For a single non-multipart `text` leaf whose stored metadata
fields carry the canonical token shapes the header classifier produces
(quoted type/subtype with type `text`, a parameter list of string pairs
or no parameters, simple canonical id/description/encoding tokens and a
canonical extended tail), reducing the extended rendering succeeds and
returns exactly the unextended rendering: type, subtype, params, id,
description, transfer encoding, size and line count are preserved
byte-for-byte and precisely the trailing md5/disposition/language fields
are dropped. -/
theorem c4_text_leaf_roundtrip
    (sz : MessageSize) (d : MessagePartBodyData)
    (ty st : String) (P ia ib ic : ImapArg) (E : List ImapArg)
    (hty : NVL d.content_type "\"text\"" = "\"" ++ ty ++ "\"")
    (htyq : quotedOkChars ty.data = true)
    (htext : lowerEq ty "text" = true)
    (hst : NVL d.content_subtype "\"plain\"" = "\"" ++ st ++ "\"")
    (hstq : quotedOkChars st.data = true)
    (hP : paren_or_nil d.content_type_params = flattenBS_arg P)
    (hPc : argCanonical P = true)
    (hPw : params_arg_wf P = true)
    (hia : NVL d.content_id "NIL" = flattenBS_arg ia)
    (hiac : argCanonical ia = true) (hias : arg_simple ia = true)
    (hib : NVL d.content_description "NIL" = flattenBS_arg ib)
    (hibc : argCanonical ib = true) (hibs : arg_simple ib = true)
    (hic : NVL d.content_transfer_encoding "\"8bit\"" = flattenBS_arg ic)
    (hicc : argCanonical ic = true) (hics : arg_simple ic = true)
    (hE : leaf_ext_tail d = " " ++ flattenBS_spaced E)
    (hEc : argsCanonical E = true) (hEne : E ≠ []) :
    part_get_bodystructure
        (.mk ⟨false, true, false⟩ sz (some d) []) true =
      some (leaf_base d sz ++ " " ++ uintRepr sz.lines ++ leaf_ext_tail d) ∧
    part_get_bodystructure
        (.mk ⟨false, true, false⟩ sz (some d) []) false =
      some (leaf_base d sz ++ " " ++ uintRepr sz.lines) ∧
    imap_body_parse_from_bodystructure
        (leaf_base d sz ++ " " ++ uintRepr sz.lines ++ leaf_ext_tail d) =
      some (leaf_base d sz ++ " " ++ uintRepr sz.lines) := by
  rcases E with _ | ⟨e0, E2⟩
  · exact absurd rfl hEne
  have hrT : part_get_bodystructure
      (.mk ⟨false, true, false⟩ sz (some d) []) true =
      some (leaf_base d sz ++ (" " ++ uintRepr sz.lines) ++ leaf_ext_tail d) := by
    simp [part_get_bodystructure, part_write_one, part_write_body,
      MessagePart.flags]
  have hrF : part_get_bodystructure
      (.mk ⟨false, true, false⟩ sz (some d) []) false =
      some (leaf_base d sz ++ (" " ++ uintRepr sz.lines)) := by
    simp [part_get_bodystructure, part_write_one, part_write_body,
      MessagePart.flags]
  have hAc : argsCanonical
      (.str ty :: .str st :: P :: ia :: ib :: ic ::
        .atom (uintRepr sz.virtual_size) :: .atom (uintRepr sz.lines) ::
        e0 :: E2) = true := by
    simp only [argsCanonical, Bool.and_eq_true]
    refine ⟨?_, ?_, hPc, hiac, hibc, hicc,
      uintRepr_canonical sz.virtual_size, uintRepr_canonical sz.lines, ?_⟩
    · rw [argCanonical.eq_def]
      exact htyq
    · rw [argCanonical.eq_def]
      exact hstq
    · simpa only [argsCanonical, Bool.and_eq_true] using hEc
  obtain ⟨s1, hp⟩ : ∃ s1, params_field P = some s1 := by
    rw [← Option.isSome_iff_exists, params_field_isSome]
    exact hPw
  obtain ⟨s2, h4⟩ : ∃ s2, copy4 ia ib ic (.atom (uintRepr sz.virtual_size)) =
      some s2 := by
    rw [← Option.isSome_iff_exists, copy4_isSome, hias, hibs, hics]
    rfl
  have hs1 : s1 = " " ++ flattenBS_arg P := params_field_flatten P s1 hp
  have hs2 : s2 = " " ++ flattenBS_arg ia ++ " " ++ flattenBS_arg ib ++ " " ++
      flattenBS_arg ic ++ " " ++ flattenBS_arg (.atom (uintRepr sz.virtual_size)) :=
    copy4_flatten _ _ _ _ s2 h4
  have hbase : leaf_base d sz =
      "\"" ++ ty ++ "\" \"" ++ st ++ "\"" ++ s1 ++ s2 := by
    rw [leaf_base, hty, hst, hP, hia, hib, hic, hs1, hs2, flattenBS_arg_atom]
    apply String.ext
    simp [String.data_append]
  have hred : imap_parse_bodystructure_args
      (.str ty :: .str st :: P :: ia :: ib :: ic ::
        .atom (uintRepr sz.virtual_size) :: .atom (uintRepr sz.lines) ::
        e0 :: E2) = some (leaf_base d sz ++ (" " ++ uintRepr sz.lines)) := by
    rw [imap_parse_bodystructure_args.eq_def]
    simp only [hp, h4, htext, Option.bind_eq_bind, Option.some_bind, if_true,
      Option.some.injEq]
    rw [hbase]
    apply String.ext
    simp [String.data_append]
  have hflatS : flattenBS_args
      (.str ty :: .str st :: P :: ia :: ib :: ic ::
        .atom (uintRepr sz.virtual_size) :: .atom (uintRepr sz.lines) ::
        e0 :: E2) =
      leaf_base d sz ++ (" " ++ uintRepr sz.lines) ++ leaf_ext_tail d := by
    rw [flattenBS_args_spaced _ _ (by intro l h; simp at h),
      flattenBS_spaced_cons, flattenBS_spaced_cons, flattenBS_spaced_cons,
      flattenBS_spaced_cons, flattenBS_spaced_cons, flattenBS_spaced_cons,
      flattenBS_spaced_cons, flattenBS_spaced_cons,
      flattenBS_arg_str, flattenBS_arg_str, flattenBS_arg_atom,
      flattenBS_arg_atom, hbase, hE, hs1, hs2, flattenBS_arg_atom]
    apply String.ext
    simp [String.data_append]
  have hassoc1 : leaf_base d sz ++ " " ++ uintRepr sz.lines ++ leaf_ext_tail d =
      leaf_base d sz ++ (" " ++ uintRepr sz.lines) ++ leaf_ext_tail d := by
    apply String.ext
    simp [String.data_append]
  have hassoc2 : leaf_base d sz ++ " " ++ uintRepr sz.lines =
      leaf_base d sz ++ (" " ++ uintRepr sz.lines) := by
    apply String.ext
    simp [String.data_append]
  refine ⟨by rw [hrT, hassoc1], by rw [hrF, hassoc2], ?_⟩
  have hgoal : imap_body_parse_from_bodystructure
      (leaf_base d sz ++ (" " ++ uintRepr sz.lines) ++ leaf_ext_tail d) =
      some (leaf_base d sz ++ (" " ++ uintRepr sz.lines)) := by
    rw [← hflatS]
    show (imap_parser_read_args_model _).bind imap_parse_bodystructure_args = _
    rw [flatten_reparse _ hAc]
    simp only [Option.bind_eq_bind, Option.some_bind]
    exact hred
  rw [hassoc1, hassoc2]
  exact hgoal

/-- C4 witness: the text-leaf round trip applied to a leaf with wholly
default metadata. -/
theorem c4_witness :
    part_get_bodystructure
        (.mk ⟨false, true, false⟩ {} (some {}) []) true =
      some "\"text\" \"plain\" NIL NIL NIL \"8bit\" 0 0 NIL NIL NIL" ∧
    part_get_bodystructure
        (.mk ⟨false, true, false⟩ {} (some {}) []) false =
      some "\"text\" \"plain\" NIL NIL NIL \"8bit\" 0 0" ∧
    imap_body_parse_from_bodystructure
        "\"text\" \"plain\" NIL NIL NIL \"8bit\" 0 0 NIL NIL NIL" =
      some "\"text\" \"plain\" NIL NIL NIL \"8bit\" 0 0" := by
  have h := c4_text_leaf_roundtrip {} {} "text" "plain" .nil .nil .nil
    (.str "8bit") [.nil, .nil, .nil]
    (by decide)
    (by simp [quotedOkChars])
    (by decide)
    (by decide)
    (by simp [quotedOkChars])
    (by rw [flattenBS_arg_nil]; decide)
    (by rw [argCanonical.eq_def])
    (by decide)
    (by rw [flattenBS_arg_nil]; decide)
    (by rw [argCanonical.eq_def])
    (by decide)
    (by rw [flattenBS_arg_nil]; decide)
    (by rw [argCanonical.eq_def])
    (by decide)
    (by rw [flattenBS_arg_str]; decide)
    (by rw [argCanonical.eq_def]; simp [quotedOkChars])
    (by decide)
    (by rw [flattenBS_spaced_cons, flattenBS_spaced_cons, flattenBS_spaced_one,
          flattenBS_arg_nil]
        decide)
    (by simp only [argsCanonical, Bool.and_eq_true, Bool.and_true]
        refine ⟨?_, ?_, ?_⟩ <;> rw [argCanonical.eq_def])
    (by simp)
  exact h

end Bodystructure
